import Mathlib

/-!
Verification of the nestjs-paginate-client library core: the filter-token
codec (src/lib/filter.ts), the query-string serializer (src/lib/query-string.ts),
the fluent parameter builder (src/lib/builder.ts, current revision with
clone/toURLSearchParams), and the query-string parser (src/lib/parse.ts).

JavaScript strings are modelled as lists of Unicode scalar values
(`JStr := List Char`); JavaScript numbers occurring in the pagination
parameters are modelled as integers, following the data model (page/limit are
integers).  The JS builtins `encodeURIComponent` / `decodeURIComponent` are
modelled faithfully over UTF-8 bytes; `decodeURIComponent` can fail
(URIError), so it returns `Except`.
-/

/-- JavaScript string, as a list of Unicode scalar values. -/
abbrev JStr := List Char

/-- Coerce a Lean string literal to the `JStr` model. -/
def str (s : String) : JStr := s.data

/-- JS `String.prototype.split(sep)` (single-character separator): empty
segments are kept, and splitting the empty string yields one empty segment. -/
def jsSplit (sep : Char) : JStr → List JStr
  | [] => [[]]
  | c :: rest =>
    let r := jsSplit sep rest
    if c = sep then [] :: r
    else
      match r with
      | [] => [[c]]
      | h :: t => (c :: h) :: t

/-- `Array.prototype.join(sep)` for a single-character separator. -/
def joinSep (sep : Char) : List JStr → JStr
  | [] => []
  | [x] => x
  | x :: xs => x ++ sep :: joinSep sep xs

/-- JS `String.prototype.indexOf(c)` returning `none` for `-1`. -/
def idxOf? (c : Char) : JStr → Option Nat
  | [] => none
  | x :: xs => if x = c then some 0 else (idxOf? c xs).map (· + 1)

/-- JS `String.prototype.lastIndexOf(c)` returning `none` for `-1`. -/
def lastIdxOf? (c : Char) : JStr → Option Nat
  | [] => none
  | x :: xs =>
    match lastIdxOf? c xs with
    | some i => some (i + 1)
    | none => if x = c then some 0 else none

/-- Little-endian base-10 digits, by structural recursion on a fuel bound
(so that it reduces in the kernel; agrees with `Nat.digits 10`). -/
def natDigitsAux : Nat → Nat → List Nat
  | 0, _ => []
  | _ + 1, 0 => []
  | fuel + 1, n + 1 => (n + 1) % 10 :: natDigitsAux fuel ((n + 1) / 10)

/-- Little-endian base-10 digits of a natural number (empty for zero). -/
def natDigits (n : Nat) : List Nat := natDigitsAux n n

theorem natDigitsAux_eq_digits (fuel n : Nat) (h : n ≤ fuel) :
    natDigitsAux fuel n = Nat.digits 10 n := by
  induction fuel generalizing n with
  | zero =>
    have : n = 0 := Nat.le_zero.mp h
    subst this; simp [natDigitsAux]
  | succ f ih =>
    cases n with
    | zero => simp [natDigitsAux]
    | succ m =>
      rw [natDigitsAux, Nat.digits_def' (by omega : 2 ≤ 10) (Nat.succ_pos m)]
      congr 1
      exact ih _ (by have := Nat.div_lt_self (Nat.succ_pos m) (by omega : 1 < 10); omega)

theorem natDigits_eq_digits (n : Nat) : natDigits n = Nat.digits 10 n :=
  natDigitsAux_eq_digits n n le_rfl

/-- Decimal digit characters of a natural number (empty for zero). -/
def natDigitChars (n : Nat) : JStr :=
  (natDigits n).reverse.map (fun d => Char.ofNat (48 + d))

/-- JS `String(n)` for a natural number. -/
def jsNatToStr (n : Nat) : JStr :=
  if n = 0 then [Char.ofNat 48] else natDigitChars n

/-- JS `String(n)` for an integer. -/
def jsIntToStr : Int → JStr
  | Int.ofNat n => jsNatToStr n
  | Int.negSucc m => Char.ofNat 45 :: jsNatToStr (m + 1)

/-- Is the character an ASCII decimal digit? -/
def isDecDigit (c : Char) : Bool := 48 ≤ c.toNat && c.toNat ≤ 57

/-- Accumulate the leading decimal digits of a string, JS-`parseInt` style
(base 10, stops at the first non-digit). -/
def decDigitsVal (s : JStr) : Nat :=
  (s.takeWhile isDecDigit).foldl (fun a c => a * 10 + (c.toNat - 48)) 0

/-- JS whitespace characters skipped by `parseInt` (space, tab, LF, CR). -/
def isJsWs (c : Char) : Bool :=
  c.toNat = 32 || c.toNat = 9 || c.toNat = 10 || c.toNat = 13

/-- JS `parseInt(s, 10)`: optional leading whitespace, optional sign, then
leading decimal digits; `none` models `NaN` (no digits at all). -/
def parseJsInt (s : JStr) : Option Int :=
  match s.dropWhile isJsWs with
  | [] => none
  | c :: rest =>
    if c = Char.ofNat 45 then
      if rest.takeWhile isDecDigit = [] then none else some (-(decDigitsVal rest : Int))
    else if c = Char.ofNat 43 then
      if rest.takeWhile isDecDigit = [] then none else some (decDigitsVal rest : Int)
    else
      if (c :: rest).takeWhile isDecDigit = [] then none
      else some (decDigitsVal (c :: rest) : Int)

/-! ## Percent codec: `encodeURIComponent` / `decodeURIComponent`

JS `encodeURIComponent` leaves the unreserved characters
`A-Z a-z 0-9 - _ . ! ~ * ' ( )` untouched and replaces every other character
by the `%XX` (uppercase hex) encoding of each of its UTF-8 bytes.
`decodeURIComponent` is the inverse and throws `URIError` on a malformed
escape or an invalid UTF-8 byte sequence; it is modelled in `Except`. -/

/-- Characters `encodeURIComponent` leaves unescaped. -/
def isUnreservedChar (c : Char) : Bool :=
  (65 ≤ c.toNat && c.toNat ≤ 90) || (97 ≤ c.toNat && c.toNat ≤ 122) ||
  (48 ≤ c.toNat && c.toNat ≤ 57) ||
  (c.toNat = 45 || c.toNat = 95 || c.toNat = 46 || c.toNat = 33 ||
   c.toNat = 126 || c.toNat = 42 || c.toNat = 39 || c.toNat = 40 || c.toNat = 41)

/-- UTF-8 bytes of a Unicode scalar value. -/
def utf8Bytes (n : Nat) : List Nat :=
  if n < 128 then [n]
  else if n < 2048 then [192 + n / 64, 128 + n % 64]
  else if n < 65536 then [224 + n / 4096, 128 + n / 64 % 64, 128 + n % 64]
  else [240 + n / 262144, 128 + n / 4096 % 64, 128 + n / 64 % 64, 128 + n % 64]

/-- Uppercase hexadecimal digit character. -/
def hexDigitChar (n : Nat) : Char :=
  if n < 10 then Char.ofNat (48 + n) else Char.ofNat (55 + n)

/-- `%XX` escape of one byte. -/
def pctByte (b : Nat) : List Char :=
  [Char.ofNat 37, hexDigitChar (b / 16), hexDigitChar (b % 16)]

/-- Encoding of a single character. -/
def encChar (c : Char) : List Char :=
  if isUnreservedChar c then [c] else (utf8Bytes c.toNat).flatMap pctByte

/-- JS `encodeURIComponent`. -/
def encodeURIComponent (s : JStr) : JStr := s.flatMap encChar

/-- Value of a hexadecimal digit character (either case). -/
def hexVal (c : Char) : Option Nat :=
  if 48 ≤ c.toNat && c.toNat ≤ 57 then some (c.toNat - 48)
  else if 65 ≤ c.toNat && c.toNat ≤ 70 then some (c.toNat - 55)
  else if 97 ≤ c.toNat && c.toNat ≤ 102 then some (c.toNat - 87)
  else none

/-- One lexical unit of `decodeURIComponent`: a literal character or the byte
of a `%XX` escape. -/
inductive PctTok where
  | raw (c : Char)
  | byte (b : Nat)
deriving DecidableEq, Repr

/-- First pass of `decodeURIComponent`: turn `%XX` escapes into bytes,
failing on a `%` not followed by two hex digits. -/
def scanPct : JStr → Except Unit (List PctTok)
  | [] => .ok []
  | c :: rest =>
    if c = Char.ofNat 37 then
      match rest with
      | h1 :: h2 :: rest2 =>
        match hexVal h1, hexVal h2 with
        | some a, some b => (PctTok.byte (a * 16 + b) :: .) <$> scanPct rest2
        | _, _ => .error ()
      | _ => .error ()
    else (PctTok.raw c :: .) <$> scanPct rest

/-- Is the byte a UTF-8 continuation byte? -/
def isContByte (b : Nat) : Bool := 128 ≤ b && b ≤ 191

/-- Second pass of `decodeURIComponent`, as a streaming UTF-8 decoder over
the token list: literal characters pass through (only when no multi-byte
sequence is pending), escape bytes must form valid UTF-8 sequences.  The
first argument is the pending sequence — `some (need, acc, mn)` means `need`
more continuation bytes are expected, `acc` is the code point so far, and
`mn` the smallest legal result (the overlong check).  A truncated or
interrupted sequence, a stray continuation byte, an overlong encoding, a
surrogate or an out-of-range value is a `URIError`, as in JS. -/
def utf8Run : Option (Nat × Nat × Nat) → List PctTok → Except Unit JStr
  | none, [] => .ok []
  | some _, [] => .error ()
  | none, .raw c :: rest => (c :: .) <$> utf8Run none rest
  | some _, .raw _ :: _ => .error ()
  | none, .byte b :: rest =>
    if b < 128 then (Char.ofNat b :: .) <$> utf8Run none rest
    else if 192 ≤ b ∧ b < 224 then utf8Run (some (1, b - 192, 128)) rest
    else if 224 ≤ b ∧ b < 240 then utf8Run (some (2, b - 224, 2048)) rest
    else if 240 ≤ b ∧ b < 245 then utf8Run (some (3, b - 240, 65536)) rest
    else .error ()
  | some (need, acc, mn), .byte b :: rest =>
    if isContByte b then
      if need = 1 then
        if mn ≤ acc * 64 + (b - 128) ∧ acc * 64 + (b - 128) ≤ 1114111 ∧
            ¬(55296 ≤ acc * 64 + (b - 128) ∧ acc * 64 + (b - 128) ≤ 57343) then
          (Char.ofNat (acc * 64 + (b - 128)) :: .) <$> utf8Run none rest
        else .error ()
      else utf8Run (some (need - 1, acc * 64 + (b - 128), mn)) rest
    else .error ()

/-- JS `decodeURIComponent` (`Except.error` models a thrown `URIError`). -/
def decodeURIComponent (s : JStr) : Except Unit JStr := scanPct s >>= utf8Run none

instance {ε α : Type} [DecidableEq ε] [DecidableEq α] : DecidableEq (Except ε α)
  | .ok a, .ok b =>
    if h : a = b then .isTrue (by rw [h])
    else .isFalse (by intro hh; injection hh; contradiction)
  | .ok _, .error _ => .isFalse (by intro h; exact Except.noConfusion h)
  | .error _, .ok _ => .isFalse (by intro h; exact Except.noConfusion h)
  | .error e, .error f =>
    if h : e = f then .isTrue (by rw [h])
    else .isFalse (by intro hh; injection hh; contradiction)

example : encodeURIComponent (str "a:b") = str "a%3Ab" := by decide
example : decodeURIComponent (str "a%3Ab") = .ok (str "a:b") := by decide
example : decodeURIComponent (str "%") = .error () := by decide
example : decodeURIComponent (str "%E0") = .error () := by decide
example : encodeURIComponent (str "é") = str "%C3%A9" := by decide
example : decodeURIComponent (str "%C3%A9") = .ok (str "é") := by decide

/-! ## Filter token codec (src/lib/filter.ts) -/

/-- Filter operators compatible with the nestjs-paginate backend. -/
inductive FilterOperator where
  | EQ | GT | GTE | IN | NULL | LT | LTE | BTW | ILIKE | SW | CONTAINS
deriving DecidableEq, Repr

/-- Wire form of an operator. -/
def FilterOperator.render : FilterOperator → JStr
  | .EQ => str "$eq"
  | .GT => str "$gt"
  | .GTE => str "$gte"
  | .IN => str "$in"
  | .NULL => str "$null"
  | .LT => str "$lt"
  | .LTE => str "$lte"
  | .BTW => str "$btw"
  | .ILIKE => str "$ilike"
  | .SW => str "$sw"
  | .CONTAINS => str "$contains"

/-- Filter suffixes (`$not`). -/
inductive FilterSuffix where
  | NOT
deriving DecidableEq, Repr

def FilterSuffix.render : FilterSuffix → JStr
  | .NOT => str "$not"

/-- Filter comparators (`$and` / `$or`). -/
inductive FilterComparator where
  | AND | OR
deriving DecidableEq, Repr

def FilterComparator.render : FilterComparator → JStr
  | .AND => str "$and"
  | .OR => str "$or"

/-- The `value` field of `FilterTokenOptions`:
`string | number | [number, number]` (numbers modelled as integers). -/
inductive FilterValue where
  | s (v : JStr)
  | num (n : Int)
  | tuple (a b : Int)
deriving DecidableEq, Repr

/-- Options for building a single filter token string
(`comparator?`, `suffix?`, `operator`, `value?`). -/
structure FilterTokenOptions where
  comparator : Option FilterComparator := none
  suffix : Option FilterSuffix := none
  operator : FilterOperator
  value : Option FilterValue := none
deriving DecidableEq, Repr

/-- The token separator `:`. -/
def SEP : Char := Char.ofNat 58

/-- `buildFilterToken` from src/lib/filter.ts: pushes the comparator (unless
`$and`), the suffix, the operator; returns at once for `$null`; otherwise
appends the stringified value — or, when no value was supplied, returns the
parts without a value segment (the snapshot's silent-omission behaviour). -/
def buildFilterToken (options : FilterTokenOptions) : JStr :=
  let parts : List JStr :=
    (match options.comparator with
     | some c => if c ≠ FilterComparator.AND then [c.render] else []
     | none => []) ++
    (match options.suffix with
     | some sfx => [sfx.render]
     | none => []) ++
    [options.operator.render]
  if options.operator = FilterOperator.NULL then joinSep SEP parts
  else
    match options.value with
    | some (.tuple a b) =>
      joinSep SEP (parts ++ [jsIntToStr a ++ Char.ofNat 44 :: jsIntToStr b])
    | some (.s v) => joinSep SEP (parts ++ [v])
    | some (.num n) => joinSep SEP (parts ++ [jsIntToStr n])
    | none => joinSep SEP parts

/-- Helper `eq(value)` (source type `string | number`). -/
def eq (value : FilterValue) : JStr :=
  buildFilterToken ⟨none, none, FilterOperator.EQ, some value⟩

/-- Helper `gte(value)`. -/
def gte (value : Int) : JStr :=
  buildFilterToken ⟨none, none, FilterOperator.GTE, some (.num value)⟩

/-- Helper `or(token)`: prepends `$or:`. -/
def orTok (token : JStr) : JStr := FilterComparator.OR.render ++ SEP :: token

/-- Helper `not(token)`: prepends `$not:`. -/
def notTok (token : JStr) : JStr := FilterSuffix.NOT.render ++ SEP :: token

example : eq (.s (str "John")) = str "$eq:John" := by decide
example : gte 3 = str "$gte:3" := by decide
example : buildFilterToken ⟨none, none, .NULL, none⟩ = str "$null" := by decide
example : buildFilterToken ⟨none, none, .BTW, some (.tuple 1 10)⟩ = str "$btw:1,10" := by decide
example : buildFilterToken ⟨some .OR, none, .EQ, some (.s (str "foo"))⟩ = str "$or:$eq:foo" := by decide
example : buildFilterToken ⟨some .AND, none, .EQ, some (.s (str "foo"))⟩ = str "$eq:foo" := by decide
example : buildFilterToken ⟨none, some .NOT, .EQ, some (.s (str "x"))⟩ = str "$not:$eq:x" := by decide
example : buildFilterToken ⟨none, none, .EQ, none⟩ = str "$eq" := by decide

/-! ## Param map and query-string serializer (src/lib/query-string.ts)

`PaginateParamsRaw` is `Record<string, string | string[]>`, modelled as an
insertion-ordered association list. -/

/-- A param value: `string | string[]`. -/
inductive ParamValue where
  | single (s : JStr)
  | arr (vs : List JStr)
deriving DecidableEq, Repr

/-- `Record<string, string | string[]>`, in insertion order. -/
abbrev ParamMap := List (JStr × ParamValue)

/-- One `key=value` fragment, both sides percent-encoded. -/
def pairStr (k v : JStr) : JStr :=
  encodeURIComponent k ++ Char.ofNat 61 :: encodeURIComponent v

/-- The `pairs` array built by `toQueryString`'s loop: for each entry, each
non-empty value contributes one encoded `key=value` fragment (array values
are expanded one fragment per element).  The `undefined`/`null` guards of the
source are vacuous in the typed model. -/
def qsPairs (params : ParamMap) : List JStr :=
  params.foldl
    (fun pairs kv =>
      match kv.2 with
      | .arr vs => vs.foldl (fun ps v => if v ≠ [] then ps ++ [pairStr kv.1 v] else ps) pairs
      | .single v => if v ≠ [] then pairs ++ [pairStr kv.1 v] else pairs)
    []

/-- `toQueryString` from src/lib/query-string.ts. -/
def toQueryString (params : ParamMap) : JStr :=
  let pairs := qsPairs params
  if pairs.length ≠ 0 then Char.ofNat 63 :: joinSep (Char.ofNat 38) pairs else []

example : toQueryString [] = [] := by decide
example :
    toQueryString [(str "page", .single (str "1")), (str "sortBy", .arr [str "name:ASC"])]
      = str "?page=1&sortBy=name%3AASC" := by decide

/-! ## The parameter builder (src/lib/builder.ts, current revision)

The builder's sort directions are stored as plain strings at runtime (the
`SortDirection` union type is erased); the parser's `as SortDirection` cast
means arbitrary strings can be stored there. -/

/-- Mutable state of `PaginateQueryBuilder`. -/
structure PaginateQueryBuilder where
  _page : Option Int := none
  _limit : Option Int := none
  _sortBy : List (JStr × JStr) := []
  _search : Option JStr := none
  _searchBy : List JStr := []
  _select : List JStr := []
  _filter : List (JStr × ParamValue) := []
  _cursor : Option JStr := none
  _withDeleted : Option Bool := none
deriving DecidableEq, Repr

/-- `this._filter[key] = value` on a JS object: overwrite in place, or append
a new key at the end. -/
def setKey {α : Type} (m : List (JStr × α)) (k : JStr) (v : α) : List (JStr × α) :=
  match m with
  | [] => [(k, v)]
  | (k0, v0) :: rest => if k0 = k then (k, v) :: rest else (k0, v0) :: setKey rest k v

namespace PaginateQueryBuilder

def page (b : PaginateQueryBuilder) (n : Int) : PaginateQueryBuilder :=
  { b with _page := some n }

def limit (b : PaginateQueryBuilder) (n : Int) : PaginateQueryBuilder :=
  { b with _limit := some n }

def sortBy (b : PaginateQueryBuilder) (column direction : JStr) : PaginateQueryBuilder :=
  { b with _sortBy := b._sortBy ++ [(column, direction)] }

def search (b : PaginateQueryBuilder) (term : JStr) : PaginateQueryBuilder :=
  { b with _search := some term }

def searchBy (b : PaginateQueryBuilder) (columns : List JStr) : PaginateQueryBuilder :=
  { b with _searchBy := columns }

def select (b : PaginateQueryBuilder) (columns : List JStr) : PaginateQueryBuilder :=
  { b with _select := columns }

/-- JS truthiness of `this._filter[key]` (a `string | string[] | undefined`
value): `undefined` and the empty string are falsy, every array — even an
empty one — is truthy. -/
def truthy : Option ParamValue → Bool
  | some (.single s) => !s.isEmpty
  | some (.arr _) => true
  | none => false

/-- `filter(column, token)`: `this._filter[key] = existing ?
[...existing-as-array, ...next] : next.length === 1 ? next[0] : next`.
A truthy existing entry is spread and extended in call order; a falsy one
(absent, or the empty-string scalar) is replaced by the new token(s). -/
def filter (b : PaginateQueryBuilder) (column : JStr) (token : ParamValue) :
    PaginateQueryBuilder :=
  let existing := b._filter.lookup column
  let next : List JStr := match token with | .arr t => t | .single t => [t]
  let newVal : ParamValue :=
    if truthy existing then
      .arr ((match existing with
             | some (.arr l) => l
             | some (.single s) => [s]
             | none => []) ++ next)
    else
      match next with
      | [t] => .single t
      | _ => .arr next
  { b with _filter := setKey b._filter column newVal }

def cursor (b : PaginateQueryBuilder) (c : JStr) : PaginateQueryBuilder :=
  { b with _cursor := some c }

def withDeleted (b : PaginateQueryBuilder) (value : Bool) : PaginateQueryBuilder :=
  { b with _withDeleted := some value }

/-- `toParams()`: the ordered `PaginateParamsRaw` record. -/
def toParams (b : PaginateQueryBuilder) : ParamMap :=
  (match b._page with
   | some n => [(str "page", ParamValue.single (jsIntToStr n))]
   | none => []) ++
  (match b._limit with
   | some n => [(str "limit", ParamValue.single (jsIntToStr n))]
   | none => []) ++
  (if b._sortBy.length ≠ 0 then
    [(str "sortBy", ParamValue.arr (b._sortBy.map (fun cd => cd.1 ++ SEP :: cd.2)))]
   else []) ++
  (match b._search with
   | some s => if s ≠ [] then [(str "search", ParamValue.single s)] else []
   | none => []) ++
  (if b._searchBy.length ≠ 0 then [(str "searchBy", ParamValue.arr b._searchBy)] else []) ++
  (if b._select.length ≠ 0 then
    [(str "select", ParamValue.single (joinSep (Char.ofNat 44) b._select))]
   else []) ++
  (match b._cursor with
   | some c => [(str "cursor", ParamValue.single c)]
   | none => []) ++
  (if b._withDeleted = some true then
    [(str "withDeleted", ParamValue.single (str "true"))]
   else []) ++
  b._filter.map (fun cv => (str "filter." ++ cv.1, cv.2))

/-- `toURLSearchParams()`: the ordered multimap of decoded pairs, every value
appended (no empty-value filtering). -/
def toURLSearchParams (b : PaginateQueryBuilder) : List (JStr × JStr) :=
  b.toParams.foldl
    (fun usp kv =>
      match kv.2 with
      | .arr vs => usp ++ vs.map (fun v => (kv.1, v))
      | .single v => usp ++ [(kv.1, v)])
    []

/-- `toQueryString()` method: serialize `toParams()`. -/
def toQueryStr (b : PaginateQueryBuilder) : JStr := toQueryString b.toParams

end PaginateQueryBuilder

/-- `new PaginateQueryBuilder()` / `createPaginateParams()`. -/
def createPaginateParams : PaginateQueryBuilder := {}

example :
    ((createPaginateParams.page 1).sortBy (str "name") (str "ASC")).toParams
      = [(str "page", .single (str "1")), (str "sortBy", .arr [str "name:ASC"])] := by decide
example : createPaginateParams.toQueryStr = [] := by decide
example :
    ((createPaginateParams.filter (str "name") (.single (eq (.s (str "A"))))).filter
        (str "name") (.single (eq (.s (str "B"))))).toParams
      = [(str "filter.name", .arr [str "$eq:A", str "$eq:B"])] := by decide

/-! ## Query-string parser (src/lib/parse.ts) -/

/-- Loop state of `fromQueryString`: the builder under construction plus the
two deferred accumulators (`searchByValues`, `filterMap`). -/
structure ParseAcc where
  b : PaginateQueryBuilder
  searchByValues : List JStr
  filterMap : List (JStr × List JStr)
deriving DecidableEq, Repr

/-- The body of the parse loop after both halves of a pair were decoded:
dispatch on the key (in source order), silently ignoring unrecognized keys
and unparseable integers. -/
def dispatchKV (acc : ParseAcc) (key val : JStr) : ParseAcc :=
  if key = str "page" then
    match parseJsInt val with
    | some n => { acc with b := acc.b.page n }
    | none => acc
  else if key = str "limit" then
    match parseJsInt val with
    | some n => { acc with b := acc.b.limit n }
    | none => acc
  else if key = str "sortBy" then
    match lastIdxOf? SEP val with
    | some colonIdx =>
      { acc with b := acc.b.sortBy (val.take colonIdx) (val.drop (colonIdx + 1)) }
    | none => acc
  else if key = str "search" then
    { acc with b := acc.b.search val }
  else if key = str "searchBy" then
    { acc with searchByValues := acc.searchByValues ++ [val] }
  else if key = str "select" then
    { acc with b := acc.b.select (jsSplit (Char.ofNat 44) val) }
  else if key = str "cursor" then
    { acc with b := acc.b.cursor val }
  else if key = str "withDeleted" then
    { acc with b := acc.b.withDeleted (val = str "true") }
  else if (str "filter.").isPrefixOf key then
    let col := key.drop 7
    { acc with filterMap :=
        match acc.filterMap.lookup col with
        | some l => setKey acc.filterMap col (l ++ [val])
        | none => acc.filterMap ++ [(col, [val])] }
  else acc

/-- One iteration of the `for (const pair of queryStr.split('&'))` loop.
Empty pairs and pairs without `=` are skipped before any decoding; a decode
failure propagates (JS `decodeURIComponent` throws `URIError`). -/
def processPair (acc : ParseAcc) (pair : JStr) : Except Unit ParseAcc :=
  if pair = [] then .ok acc
  else
    match idxOf? (Char.ofNat 61) pair with
    | none => .ok acc
    | some eqIdx => do
      let key ← decodeURIComponent (pair.take eqIdx)
      let val ← decodeURIComponent (pair.drop (eqIdx + 1))
      .ok (dispatchKV acc key val)

/-- The post-loop phase of `fromQueryString`: apply the accumulated
`searchBy` values once, then each filter column's collected value list. -/
def finalizeParse (acc : ParseAcc) : PaginateQueryBuilder :=
  let b1 := if acc.searchByValues.length ≠ 0 then acc.b.searchBy acc.searchByValues else acc.b
  acc.filterMap.foldl (fun b cv => b.filter cv.1 (.arr cv.2)) b1

/-- `qs.startsWith('?') ? qs.slice(1) : qs`. -/
def stripQM (qs : JStr) : JStr :=
  if qs.head? = some (Char.ofNat 63) then qs.tail else qs

/-- `fromQueryString` from src/lib/parse.ts. -/
def fromQueryString (qs : JStr) : Except Unit PaginateQueryBuilder :=
  let queryStr := stripQM qs
  if queryStr = [] then .ok {}
  else do
    let acc ← (jsSplit (Char.ofNat 38) queryStr).foldlM processPair ⟨{}, [], []⟩
    .ok (finalizeParse acc)

example : (fromQueryString (str "?page=2&limit=5")).map PaginateQueryBuilder.toParams
    = .ok [(str "page", .single (str "2")), (str "limit", .single (str "5"))] := by decide
example : (fromQueryString (str "")).map PaginateQueryBuilder.toParams = .ok [] := by decide
example : (fromQueryString (str "?")).map PaginateQueryBuilder.toParams = .ok [] := by decide
example : fromQueryString (str "?a=%") = .error () := by decide
example : (fromQueryString (str "?sortBy=name%3AASC&sortBy=email%3ADESC")).map
    PaginateQueryBuilder.toParams
    = .ok [(str "sortBy", .arr [str "name:ASC", str "email:DESC"])] := by decide
example : (fromQueryString (str "?filter.name=%24or%3A%24eq%3AA&filter.name=%24or%3A%24eq%3AB")).map
    PaginateQueryBuilder.toParams
    = .ok [(str "filter.name", .arr [str "$or:$eq:A", str "$or:$eq:B"])] := by decide
example : (fromQueryString (str "?withDeleted=false")).map PaginateQueryBuilder.toParams
    = .ok [] := by decide
example : (fromQueryString (str "?page=abc&bogus&select=id%2Cname")).map
    PaginateQueryBuilder.toParams
    = .ok [(str "select", .single (str "id,name"))] := by decide

/-! ## Derived observation functions and predicates used by the claims -/

/-- First-match association lookup (observation function on param maps). -/
def lookupKey {α : Type} (m : List (JStr × α)) (k : JStr) : Option α :=
  match m with
  | [] => none
  | (k0, v) :: rest => if k0 = k then some v else lookupKey rest k

/-- The query-string fragments described by the spec, computed entrywise:
one encoded `key=value` fragment per non-empty value, array values expanded
in order into repeated fragments, never combined. -/
def flatQsPairs (params : ParamMap) : List JStr :=
  params.flatMap (fun kv =>
    match kv.2 with
    | .single v => if v ≠ [] then [pairStr kv.1 v] else []
    | .arr vs => (vs.filter (· ≠ [])).map (pairStr kv.1))

/-- The token list stored or passed as a `string | string[]`. -/
def tokList : ParamValue → List JStr
  | .single t => [t]
  | .arr l => l

/-- The sequence of filter tokens a builder holds for one column. -/
def entryTokens (b : PaginateQueryBuilder) (c : JStr) : List JStr :=
  match lookupKey b._filter c with
  | none => []
  | some v => tokList v

/-- A filter entry survives a serialize/parse round trip only if it is a
non-empty scalar or an array of at least two non-empty tokens (an empty or
singleton array is re-parsed into a different representation). -/
def filterValGood : ParamValue → Bool
  | .single s => !s.isEmpty
  | .arr vs => 2 ≤ vs.length && vs.all (fun t => !t.isEmpty)

/-- States whose serialized form survives the round trip: sort directions are
the two `SortDirection` literals (the TypeScript type of the public mutator),
no serialized value is the empty string (`toQueryString` drops empty values),
filter entries are non-degenerate, and the filter record has no duplicate
columns (a JS object cannot). -/
def roundTrippable (b : PaginateQueryBuilder) : Bool :=
  b._sortBy.all (fun cd => cd.2 = str "ASC" ∨ cd.2 = str "DESC") &&
  b._searchBy.all (fun s => !s.isEmpty) &&
  (b._select.isEmpty || !(joinSep (Char.ofNat 44) b._select).isEmpty) &&
  !(b._cursor = some []) &&
  (b._filter.map Prod.fst).Nodup &&
  b._filter.all (fun cv => filterValGood cv.2)

/-- No value of the param map is the empty string (array values elementwise;
an empty array itself is allowed). -/
def noEmptyValues (m : ParamMap) : Bool :=
  m.all (fun kv =>
    match kv.2 with
    | .single v => !v.isEmpty
    | .arr vs => vs.all (fun v => !v.isEmpty))

/-- Both halves of a `key=value` fragment percent-decode without error
(vacuously true for fragments without `=`, which are skipped undecoded). -/
def pairDecodes (p : JStr) : Bool :=
  match idxOf? (Char.ofNat 61) p with
  | none => true
  | some i =>
    !(decodeURIComponent (p.take i) = .error ()) &&
    !(decodeURIComponent (p.drop (i + 1)) = .error ())

/-- Is the decoded `key=value` pair one that `fromQueryString` applies (as
opposed to silently skipping)? Mirrors the dispatch order of the source. -/
def recognizedKV (key val : JStr) : Bool :=
  if key = str "page" then (parseJsInt val).isSome
  else if key = str "limit" then (parseJsInt val).isSome
  else if key = str "sortBy" then (lastIdxOf? SEP val).isSome
  else if key = str "search" then true
  else if key = str "searchBy" then true
  else if key = str "select" then true
  else if key = str "cursor" then true
  else if key = str "withDeleted" then true
  else (str "filter.").isPrefixOf key

/-- A fragment `fromQueryString` actually applies: it has an `=`, decodes,
and its decoded key/value are recognized. -/
def goodFrag (p : JStr) : Bool :=
  match idxOf? (Char.ofNat 61) p with
  | none => false
  | some i =>
    match decodeURIComponent (p.take i), decodeURIComponent (p.drop (i + 1)) with
    | .ok k, .ok v => recognizedKV k v
    | _, _ => false

/-- Total version of one loop iteration, defined on fragments that decode
(on others it skips, like the recognized-key fallthrough). -/
def applyFrag (acc : ParseAcc) (p : JStr) : ParseAcc :=
  match idxOf? (Char.ofNat 61) p with
  | none => acc
  | some i =>
    match decodeURIComponent (p.take i), decodeURIComponent (p.drop (i + 1)) with
    | .ok k, .ok v => dispatchKV acc k v
    | _, _ => acc

/-- The token stream `scanPct` recovers from the encoding of one character. -/
def encToks (c : Char) : List PctTok :=
  if isUnreservedChar c then [.raw c] else (utf8Bytes c.toNat).map .byte

/-- The decoded `(key, value)` pairs of the query string, entrywise: one pair
per non-empty value, array values expanded in order. -/
def flatKVs (params : ParamMap) : List (JStr × JStr) :=
  params.flatMap (fun kv =>
    match kv.2 with
    | .single v => if v ≠ [] then [(kv.1, v)] else []
    | .arr vs => (vs.filter (· ≠ [])).map (fun v => (kv.1, v)))

/-! ## Heap model of the builder (for the `clone` deep-copy claim)

The pure model above cannot express reference sharing, which is what
`clone()`'s element-wise copies are about.  Here the builder's array-valued
fields (`_sortBy`, `_searchBy`, `_select`, the token arrays inside
`_filter`) and the `_filter` object itself live in an explicit store, and
each method is the source method with JS reference semantics spelled out:
`push` mutates the pointed-to array in place, `columns.slice()` and the
spreads allocate fresh arrays, `clone()` copies containers element-wise. -/

namespace Heap

/-- A filter-record value: a scalar token or a reference to a token array. -/
inductive HFilterVal where
  | single (s : JStr)
  | arr (r : Nat)
deriving DecidableEq, Repr

/-- The mutable heap: sort-rule arrays, string arrays, and filter objects. -/
structure Store where
  sortArrs : List (List (JStr × JStr)) := []
  strArrs : List (List JStr) := []
  filterObjs : List (List (JStr × HFilterVal)) := []
deriving DecidableEq, Repr

/-- Builder whose container fields are references into a `Store`. -/
structure HBuilder where
  _page : Option Int := none
  _limit : Option Int := none
  _sortByRef : Nat
  _search : Option JStr := none
  _searchByRef : Nat
  _selectRef : Nat
  _filterRef : Nat
  _cursor : Option JStr := none
  _withDeleted : Option Bool := none
deriving DecidableEq, Repr

def getSort (σ : Store) (r : Nat) : List (JStr × JStr) := σ.sortArrs.getD r []
def getStr (σ : Store) (r : Nat) : List JStr := σ.strArrs.getD r []
def getObj (σ : Store) (r : Nat) : List (JStr × HFilterVal) := σ.filterObjs.getD r []

def allocSort (σ : Store) (a : List (JStr × JStr)) : Store × Nat :=
  ({ σ with sortArrs := σ.sortArrs ++ [a] }, σ.sortArrs.length)
def allocStr (σ : Store) (a : List JStr) : Store × Nat :=
  ({ σ with strArrs := σ.strArrs ++ [a] }, σ.strArrs.length)
def allocObj (σ : Store) (o : List (JStr × HFilterVal)) : Store × Nat :=
  ({ σ with filterObjs := σ.filterObjs ++ [o] }, σ.filterObjs.length)

def setSort (σ : Store) (r : Nat) (a : List (JStr × JStr)) : Store :=
  { σ with sortArrs := σ.sortArrs.set r a }
def setObj (σ : Store) (r : Nat) (o : List (JStr × HFilterVal)) : Store :=
  { σ with filterObjs := σ.filterObjs.set r o }

/-- `new PaginateQueryBuilder()`: every container field starts as a fresh
empty array/object. -/
def newBuilder (σ : Store) : Store × HBuilder :=
  let (σ1, rs) := allocSort σ []
  let (σ2, rb) := allocStr σ1 []
  let (σ3, rl) := allocStr σ2 []
  let (σ4, rf) := allocObj σ3 []
  (σ4, { _sortByRef := rs, _searchByRef := rb, _selectRef := rl, _filterRef := rf })

def page (σ : Store) (b : HBuilder) (n : Int) : Store × HBuilder :=
  (σ, { b with _page := some n })
def limit (σ : Store) (b : HBuilder) (n : Int) : Store × HBuilder :=
  (σ, { b with _limit := some n })
/-- `this._sortBy.push([column, direction])`: in-place array mutation. -/
def sortBy (σ : Store) (b : HBuilder) (column direction : JStr) : Store × HBuilder :=
  (setSort σ b._sortByRef (getSort σ b._sortByRef ++ [(column, direction)]), b)
def search (σ : Store) (b : HBuilder) (term : JStr) : Store × HBuilder :=
  (σ, { b with _search := some term })
/-- `this._searchBy = columns.slice()`: rebind the field to a fresh copy. -/
def searchBy (σ : Store) (b : HBuilder) (columns : List JStr) : Store × HBuilder :=
  let (σ1, r) := allocStr σ columns
  (σ1, { b with _searchByRef := r })
def select (σ : Store) (b : HBuilder) (columns : List JStr) : Store × HBuilder :=
  let (σ1, r) := allocStr σ columns
  (σ1, { b with _selectRef := r })
/-- `filter(column, token)` with reference semantics: a truthy existing
entry (any array reference, or a non-empty scalar) is spread together with
the new tokens into a freshly allocated array; a falsy one (absent, or the
empty-string scalar) is replaced by a scalar or a fresh array of the new
tokens — never an in-place array mutation. -/
def filter (σ : Store) (b : HBuilder) (column : JStr) (token : ParamValue) :
    Store × HBuilder :=
  let o := getObj σ b._filterRef
  let existing := lookupKey o column
  let next : List JStr := match token with | .arr t => t | .single t => [t]
  if (match existing with
      | some (.single s) => !s.isEmpty
      | some (.arr _) => true
      | none => false) then
    let eList : List JStr := match existing with
      | some (.arr r) => getStr σ r
      | some (.single s) => [s]
      | none => []
    let (σ1, r) := allocStr σ (eList ++ next)
    (setObj σ1 b._filterRef (setKey o column (.arr r)), b)
  else
    match next with
    | [t] => (setObj σ b._filterRef (setKey o column (.single t)), b)
    | _ =>
      let (σ1, r) := allocStr σ next
      (setObj σ1 b._filterRef (setKey o column (.arr r)), b)
def cursor (σ : Store) (b : HBuilder) (c : JStr) : Store × HBuilder :=
  (σ, { b with _cursor := some c })
def withDeleted (σ : Store) (b : HBuilder) (value : Bool) : Store × HBuilder :=
  (σ, { b with _withDeleted := some value })

/-- The element-wise copy of the filter record done by `clone()`: scalar
entries are copied as values, array entries get a freshly allocated copy
(`Array.isArray(v) ? [...v] : v`). -/
def copyFilterEntries (σ0 : Store) :
    List (JStr × HFilterVal) → Store → Store × List (JStr × HFilterVal)
  | [], σ => (σ, [])
  | (c, .single s) :: rest, σ =>
    let (σ', o) := copyFilterEntries σ0 rest σ
    (σ', (c, .single s) :: o)
  | (c, .arr r) :: rest, σ =>
    let (σ1, r') := allocStr σ (getStr σ0 r)
    let (σ', o) := copyFilterEntries σ0 rest σ1
    (σ', (c, .arr r') :: o)

/-- `clone()` from the source: scalar fields copied, `_sortBy` mapped
element-wise into a new array, `_searchBy`/`_select` spread into new arrays,
`_filter` rebuilt as a new object with array values spread. -/
def clone (σ : Store) (b : HBuilder) : Store × HBuilder :=
  let (σ1, rs) := allocSort σ (getSort σ b._sortByRef)
  let (σ2, rb) := allocStr σ1 (getStr σ b._searchByRef)
  let (σ3, rl) := allocStr σ2 (getStr σ b._selectRef)
  let (σ4, entries) := copyFilterEntries σ (getObj σ b._filterRef) σ3
  let (σ5, rf) := allocObj σ4 entries
  (σ5, { b with _sortByRef := rs, _searchByRef := rb, _selectRef := rl, _filterRef := rf })

/-- Dereference one filter-record entry into its pure value. -/
def viewEntry (σ : Store) (cv : JStr × HFilterVal) : JStr × ParamValue :=
  (cv.1, match cv.2 with
         | .single s => ParamValue.single s
         | .arr r => ParamValue.arr (getStr σ r))

/-- Read a heap builder back as a pure value (dereference every container);
`toParams` of this view is the observable param map. -/
def pureView (σ : Store) (b : HBuilder) : PaginateQueryBuilder :=
  { _page := b._page
    _limit := b._limit
    _sortBy := getSort σ b._sortByRef
    _search := b._search
    _searchBy := getStr σ b._searchByRef
    _select := getStr σ b._selectRef
    _filter := (getObj σ b._filterRef).map (viewEntry σ)
    _cursor := b._cursor
    _withDeleted := b._withDeleted }

/-- The builder's references, including those inside its filter object, are
live (in bounds) in the store. -/
def wf (σ : Store) (b : HBuilder) : Bool :=
  b._sortByRef < σ.sortArrs.length &&
  b._searchByRef < σ.strArrs.length &&
  b._selectRef < σ.strArrs.length &&
  b._filterRef < σ.filterObjs.length &&
  (getObj σ b._filterRef).all (fun cv =>
    match cv.2 with
    | .single _ => true
    | .arr r => r < σ.strArrs.length)

/-- One public mutation, as data. -/
inductive Mut where
  | page (n : Int)
  | limit (n : Int)
  | sortBy (c d : JStr)
  | search (s : JStr)
  | searchBy (cs : List JStr)
  | select (cs : List JStr)
  | filter (c : JStr) (t : ParamValue)
  | cursor (s : JStr)
  | withDeleted (v : Bool)
deriving DecidableEq, Repr

/-- Run one mutation against a builder in a store. -/
def applyMut (σ : Store) (b : HBuilder) : Mut → Store × HBuilder
  | .page n => page σ b n
  | .limit n => limit σ b n
  | .sortBy c d => sortBy σ b c d
  | .search s => search σ b s
  | .searchBy cs => searchBy σ b cs
  | .select cs => select σ b cs
  | .filter c t => filter σ b c t
  | .cursor s => cursor σ b s
  | .withDeleted v => withDeleted σ b v

/-- Run a sequence of mutations. -/
def applyMuts (σ : Store) (b : HBuilder) : List Mut → Store × HBuilder
  | [] => (σ, b)
  | m :: ms =>
    let (σ', b') := applyMut σ b m
    applyMuts σ' b' ms

/-- How a store may evolve while a builder whose sort-array reference is
`rs` and filter-object reference is `rf` is being mutated: the store only
grows, string-array cells are never overwritten, and the only sort-array
and filter-object cells that may change are `rs` and `rf`. -/
def PreservesExcept (σ σ' : Store) (rs rf : Nat) : Prop :=
  σ.sortArrs.length ≤ σ'.sortArrs.length ∧
  σ.strArrs.length ≤ σ'.strArrs.length ∧
  σ.filterObjs.length ≤ σ'.filterObjs.length ∧
  (∀ r, r < σ.sortArrs.length → r ≠ rs → getSort σ' r = getSort σ r) ∧
  (∀ r, r < σ.strArrs.length → getStr σ' r = getStr σ r) ∧
  (∀ r, r < σ.filterObjs.length → r ≠ rf → getObj σ' r = getObj σ r)

end Heap

/-! # Lemmas and claim theorems -/

/-! ## Splitting and joining -/

theorem jsSplit_ne_nil (sep : Char) (s : JStr) : jsSplit sep s ≠ [] := by
  cases s with
  | nil => simp [jsSplit]
  | cons c rest =>
    simp only [jsSplit]
    split
    · simp
    · cases h : jsSplit sep rest <;> simp

theorem jsSplit_no_sep (sep : Char) (s : JStr) (h : sep ∉ s) : jsSplit sep s = [s] := by
  induction s with
  | nil => rfl
  | cons c rest ih =>
    simp only [List.mem_cons, not_or] at h
    simp only [jsSplit]
    rw [if_neg (by intro hc; exact h.1 hc.symm), ih h.2]

theorem jsSplit_sep_append (sep : Char) (x r : JStr) (h : sep ∉ x) :
    jsSplit sep (x ++ sep :: r) = x :: jsSplit sep r := by
  induction x with
  | nil => simp [jsSplit]
  | cons c rest ih =>
    simp only [List.mem_cons, not_or] at h
    simp only [List.cons_append, List.append_eq, jsSplit]
    rw [if_neg (by intro hc; exact h.1 hc.symm), ih h.2]

theorem jsSplit_joinSep (sep : Char) (ps : List JStr) (hne : ps ≠ [])
    (h : ∀ p ∈ ps, sep ∉ p) : jsSplit sep (joinSep sep ps) = ps := by
  induction ps with
  | nil => exact absurd rfl hne
  | cons x rest ih =>
    cases rest with
    | nil => exact jsSplit_no_sep sep x (h x (by simp))
    | cons y ys =>
      show jsSplit sep (x ++ sep :: joinSep sep (y :: ys)) = _
      rw [jsSplit_sep_append sep x _ (h x (by simp)),
        ih (by simp) (fun p hp => h p (List.mem_cons_of_mem x hp))]

theorem joinSep_jsSplit (sep : Char) (s : JStr) : joinSep sep (jsSplit sep s) = s := by
  induction s with
  | nil => rfl
  | cons c rest ih =>
    simp only [jsSplit]
    split
    · rename_i hc
      subst hc
      cases hr : jsSplit c rest with
      | nil => exact absurd hr (jsSplit_ne_nil c rest)
      | cons h t =>
        rw [hr] at ih
        simp only [joinSep, List.nil_append]
        exact congrArg (c :: ·) ih
    · rename_i hc
      cases hr : jsSplit sep rest with
      | nil => exact absurd hr (jsSplit_ne_nil sep rest)
      | cons h t =>
        rw [hr] at ih
        show joinSep sep ((c :: h) :: t) = c :: rest
        cases t with
        | nil =>
          simp only [joinSep] at ih ⊢
          rw [ih]
        | cons z zs =>
          simp only [joinSep, List.cons_append, List.cons.injEq, true_and] at ih ⊢
          exact ih

theorem joinSep_ne_nil_of_head (sep : Char) (x : JStr) (ps : List JStr) (h : x ≠ []) :
    joinSep sep (x :: ps) ≠ [] := by
  cases ps with
  | nil => simpa [joinSep]
  | cons y ys => simp only [joinSep]; intro hc; cases x <;> simp_all

/-! ## Index search -/

theorem idxOf?_sep_append (c : Char) (k v : JStr) (h : c ∉ k) :
    idxOf? c (k ++ c :: v) = some k.length := by
  induction k with
  | nil => simp [idxOf?]
  | cons a rest ih =>
    simp only [List.mem_cons, not_or] at h
    simp only [List.cons_append, List.append_eq, idxOf?]
    rw [if_neg (by intro hc; exact h.1 hc.symm), ih h.2]
    rfl

theorem lastIdxOf?_eq_none (c : Char) (v : JStr) (h : c ∉ v) : lastIdxOf? c v = none := by
  induction v with
  | nil => rfl
  | cons a rest ih =>
    simp only [List.mem_cons, not_or] at h
    simp only [lastIdxOf?, ih h.2]
    rw [if_neg (by intro hc; exact h.1 hc.symm)]

theorem lastIdxOf?_sep_append (c : Char) (k v : JStr) (h : c ∉ v) :
    lastIdxOf? c (k ++ c :: v) = some k.length := by
  induction k with
  | nil => simp [lastIdxOf?, lastIdxOf?_eq_none c v h]
  | cons a rest ih =>
    simp only [List.cons_append, List.append_eq, lastIdxOf?, ih]
    rfl

theorem take_length_append {α : Type} (k : List α) (c : α) (v : List α) :
    (k ++ c :: v).take k.length = k := by
  simp [List.take_append_eq_append_take, List.take_of_length_le (le_refl k.length)]

theorem drop_length_succ_append {α : Type} (k : List α) (c : α) (v : List α) :
    (k ++ c :: v).drop (k.length + 1) = v := by
  rw [show k.length + 1 = k.length + 1 from rfl, ← List.drop_drop,
    List.drop_left]
  rfl

/-! ## Decimal strings -/

theorem jsNatToStr_ne_nil (m : Nat) : jsNatToStr m ≠ [] := by
  unfold jsNatToStr
  split
  · simp
  · rename_i h
    unfold natDigitChars
    rw [natDigits_eq_digits]
    simp [Nat.digits_ne_nil_iff_ne_zero, h]

theorem jsNatToStr_digits (m : Nat) :
    ∀ ch ∈ jsNatToStr m, 48 ≤ ch.toNat ∧ ch.toNat ≤ 57 := by
  intro ch hch
  unfold jsNatToStr at hch
  split at hch
  · simp only [List.mem_singleton] at hch
    subst hch; decide
  · unfold natDigitChars at hch
    rw [natDigits_eq_digits] at hch
    simp only [List.mem_map, List.mem_reverse] at hch
    obtain ⟨d, hd, rfl⟩ := hch
    have hlt : d < 10 := Nat.digits_lt_base (by omega) hd
    interval_cases d <;> decide

theorem foldl_digit_chars (ds : List Nat) (a : Nat) (h : ∀ d ∈ ds, d < 10) :
    ((ds.reverse.map (fun d => Char.ofNat (48 + d))).foldl
        (fun acc ch => acc * 10 + (ch.toNat - 48)) a)
      = a * 10 ^ ds.length + Nat.ofDigits 10 ds := by
  induction ds generalizing a with
  | nil => simp
  | cons d rest ih =>
    simp only [List.reverse_cons, List.map_append, List.foldl_append, List.map_cons,
      List.map_nil, List.foldl_cons, List.foldl_nil]
    rw [ih a (fun x hx => h x (List.mem_cons_of_mem d hx))]
    have hd : d < 10 := h d (by simp)
    have hch : (Char.ofNat (48 + d)).toNat = 48 + d := by interval_cases d <;> decide
    rw [hch, Nat.ofDigits_cons, Nat.add_sub_cancel_left, List.length_cons, pow_succ]
    ring

theorem decDigitsVal_jsNatToStr (m : Nat) : decDigitsVal (jsNatToStr m) = m := by
  have hall : (jsNatToStr m).takeWhile isDecDigit = jsNatToStr m := by
    apply List.takeWhile_eq_self_iff.mpr
    intro ch hch
    have := jsNatToStr_digits m ch hch
    simp [isDecDigit]; omega
  unfold decDigitsVal
  rw [hall]
  by_cases hm : m = 0
  · subst hm; decide
  · unfold jsNatToStr
    rw [if_neg hm]
    unfold natDigitChars
    rw [natDigits_eq_digits,
      foldl_digit_chars _ 0 (fun d hd => Nat.digits_lt_base (by omega) hd),
      Nat.ofDigits_digits]
    simp

theorem parseJsInt_jsIntToStr (n : Int) : parseJsInt (jsIntToStr n) = some n := by
  cases n with
  | ofNat m =>
    show parseJsInt (jsNatToStr m) = _
    obtain ⟨ch, rest, hcr⟩ : ∃ ch rest, jsNatToStr m = ch :: rest := by
      cases h : jsNatToStr m with
      | nil => exact absurd h (jsNatToStr_ne_nil m)
      | cons a r => exact ⟨a, r, rfl⟩
    have hd := jsNatToStr_digits m ch (by rw [hcr]; simp)
    have hnw : isJsWs ch = false := by simp [isJsWs]; omega
    have h45 : ¬ ch = Char.ofNat 45 := by intro h; subst h; revert hd; decide
    have h43 : ¬ ch = Char.ofNat 43 := by intro h; subst h; revert hd; decide
    have hne : (ch :: rest).takeWhile isDecDigit ≠ [] := by
      rw [List.takeWhile_cons, if_pos (by simp [isDecDigit]; omega)]
      simp
    have hval := decDigitsVal_jsNatToStr m
    rw [hcr] at hval
    unfold parseJsInt
    rw [hcr]
    simp [List.dropWhile_cons, hnw, h45, h43, hne, hval]
  | negSucc m =>
    show parseJsInt (Char.ofNat 45 :: jsNatToStr (m + 1)) = _
    have hall : (jsNatToStr (m + 1)).takeWhile isDecDigit = jsNatToStr (m + 1) := by
      apply List.takeWhile_eq_self_iff.mpr
      intro ch hch
      have := jsNatToStr_digits (m + 1) ch hch
      simp [isDecDigit]; omega
    have hstep : parseJsInt (Char.ofNat 45 :: jsNatToStr (m + 1)) =
        if (jsNatToStr (m + 1)).takeWhile isDecDigit = [] then none
        else some (-(decDigitsVal (jsNatToStr (m + 1)) : Int)) := rfl
    rw [hstep, if_neg (by rw [hall]; exact jsNatToStr_ne_nil (m + 1)),
      decDigitsVal_jsNatToStr (m + 1)]
    simp [Int.negSucc_eq]

theorem jsIntToStr_ne_nil (n : Int) : jsIntToStr n ≠ [] := by
  cases n with
  | ofNat m => exact jsNatToStr_ne_nil m
  | negSucc m => simp [jsIntToStr]

/-! ## Percent-codec round trip -/

theorem char_toNat_valid (c : Char) :
    c.toNat < 55296 ∨ (57343 < c.toNat ∧ c.toNat < 1114112) := by
  have h := c.valid
  simp only [UInt32.isValidChar, Nat.isValidChar] at h
  exact h

theorem hexVal_hexDigitChar (m : Nat) (h : m < 16) : hexVal (hexDigitChar m) = some m := by
  interval_cases m <;> decide

theorem hexDigitChar_range (m : Nat) (h : m < 16) :
    (48 ≤ (hexDigitChar m).toNat ∧ (hexDigitChar m).toNat ≤ 57) ∨
    (65 ≤ (hexDigitChar m).toNat ∧ (hexDigitChar m).toNat ≤ 70) := by
  interval_cases m <;> decide

theorem utf8Bytes_bound (n : Nat) (h : n < 1114112) : ∀ b ∈ utf8Bytes n, b < 256 := by
  intro b hb
  unfold utf8Bytes at hb
  split at hb
  · simp only [List.mem_singleton] at hb; omega
  · split at hb
    · simp only [List.mem_cons, List.mem_singleton, List.not_mem_nil, or_false] at hb
      rcases hb with rfl | rfl <;> omega
    · split at hb
      · simp only [List.mem_cons, List.mem_singleton, List.not_mem_nil, or_false] at hb
        rcases hb with rfl | rfl | rfl <;> omega
      · simp only [List.mem_cons, List.mem_singleton, List.not_mem_nil, or_false] at hb
        rcases hb with rfl | rfl | rfl | rfl <;> omega

theorem scanPct_cons_raw (c : Char) (rest : JStr) (hc : ¬ c = Char.ofNat 37) :
    scanPct (c :: rest) = (PctTok.raw c :: ·) <$> scanPct rest := by
  rw [scanPct.eq_def]
  simp only []
  rw [if_neg hc]

theorem scanPct_cons_pct (h1 h2 : Char) (rest2 : JStr) (a b : Nat)
    (ha : hexVal h1 = some a) (hb : hexVal h2 = some b) :
    scanPct (Char.ofNat 37 :: h1 :: h2 :: rest2)
      = (PctTok.byte (a * 16 + b) :: ·) <$> scanPct rest2 := by
  rw [scanPct.eq_def]
  simp only [if_pos rfl, ha, hb, if_true]

theorem scanPct_pctBytes (bs : List Nat) (rest : JStr) (h : ∀ b ∈ bs, b < 256) :
    scanPct (bs.flatMap pctByte ++ rest) = (bs.map PctTok.byte ++ ·) <$> scanPct rest := by
  induction bs with
  | nil =>
    simp only [List.flatMap_nil, List.nil_append, List.map_nil]
    cases scanPct rest <;> rfl
  | cons b bs ih =>
    have hb : b < 256 := h b (by simp)
    simp only [List.flatMap_cons, List.append_assoc]
    show scanPct (Char.ofNat 37 :: hexDigitChar (b / 16) :: hexDigitChar (b % 16) ::
      (bs.flatMap pctByte ++ rest)) = _
    rw [scanPct_cons_pct _ _ _ _ _ (hexVal_hexDigitChar _ (by omega))
      (hexVal_hexDigitChar _ (by omega))]
    have hval : b / 16 * 16 + b % 16 = b := by omega
    rw [hval, ih (fun x hx => h x (List.mem_cons_of_mem b hx))]
    cases scanPct rest <;> rfl

theorem scanPct_encChar (c : Char) (rest : JStr) :
    scanPct (encChar c ++ rest) = (encToks c ++ ·) <$> scanPct rest := by
  unfold encChar encToks
  split
  · rename_i hu
    have hc : ¬ c = Char.ofNat 37 := by intro e; subst e; revert hu; decide
    rw [List.singleton_append, scanPct_cons_raw c rest hc]
    cases scanPct rest <;> rfl
  · exact scanPct_pctBytes _ rest
      (utf8Bytes_bound c.toNat (by rcases char_toNat_valid c with h | h <;> omega))

theorem scanPct_encode (s : JStr) :
    scanPct (encodeURIComponent s) = .ok (s.flatMap encToks) := by
  induction s with
  | nil => rfl
  | cons c s ih =>
    show scanPct (encChar c ++ encodeURIComponent s) = _
    rw [scanPct_encChar, ih]
    rfl

theorem utf8Run_raw (c : Char) (ts : List PctTok) :
    utf8Run none (.raw c :: ts) = (c :: ·) <$> utf8Run none ts := by
  simp only [utf8Run]

theorem utf8Run_ascii (b : Nat) (ts : List PctTok) (h : b < 128) :
    utf8Run none (.byte b :: ts) = (Char.ofNat b :: ·) <$> utf8Run none ts := by
  simp only [utf8Run]
  rw [if_pos h]

theorem utf8Run_start2 (b : Nat) (ts : List PctTok) (h : 192 ≤ b ∧ b < 224) :
    utf8Run none (.byte b :: ts) = utf8Run (some (1, b - 192, 128)) ts := by
  simp only [utf8Run]
  rw [if_neg (by omega), if_pos h]

theorem utf8Run_start3 (b : Nat) (ts : List PctTok) (h : 224 ≤ b ∧ b < 240) :
    utf8Run none (.byte b :: ts) = utf8Run (some (2, b - 224, 2048)) ts := by
  simp only [utf8Run]
  rw [if_neg (by omega), if_neg (by omega), if_pos h]

theorem utf8Run_start4 (b : Nat) (ts : List PctTok) (h : 240 ≤ b ∧ b < 245) :
    utf8Run none (.byte b :: ts) = utf8Run (some (3, b - 240, 65536)) ts := by
  simp only [utf8Run]
  rw [if_neg (by omega), if_neg (by omega), if_neg (by omega), if_pos h]

theorem utf8Run_cont (need acc mn b : Nat) (ts : List PctTok)
    (hb : isContByte b = true) (hneed : ¬ need = 1) :
    utf8Run (some (need, acc, mn)) (.byte b :: ts)
      = utf8Run (some (need - 1, acc * 64 + (b - 128), mn)) ts := by
  simp only [utf8Run]
  rw [if_pos hb, if_neg hneed]

theorem utf8Run_last (acc mn b : Nat) (ts : List PctTok) (hb : isContByte b = true)
    (hok : mn ≤ acc * 64 + (b - 128) ∧ acc * 64 + (b - 128) ≤ 1114111 ∧
      ¬(55296 ≤ acc * 64 + (b - 128) ∧ acc * 64 + (b - 128) ≤ 57343)) :
    utf8Run (some (1, acc, mn)) (.byte b :: ts)
      = (Char.ofNat (acc * 64 + (b - 128)) :: ·) <$> utf8Run none ts := by
  simp only [utf8Run, if_true]
  rw [if_pos hb, if_pos hok]

theorem utf8Run_encToks (c : Char) (ts : List PctTok) :
    utf8Run none (encToks c ++ ts) = (c :: ·) <$> utf8Run none ts := by
  have hcont : ∀ m : Nat, m < 64 → isContByte (128 + m) = true := by
    intro m hm
    simp only [isContByte, Bool.and_eq_true, decide_eq_true_eq]
    omega
  have e0 : ∀ a n : Nat, a + n - a = n := fun a n => by omega
  unfold encToks
  split
  · rw [List.singleton_append, utf8Run_raw]
  · have hval := char_toNat_valid c
    unfold utf8Bytes
    by_cases h1 : c.toNat < 128
    · rw [if_pos h1]
      simp only [List.map_cons, List.map_nil, List.singleton_append]
      rw [utf8Run_ascii _ _ h1, Char.ofNat_toNat]
    · rw [if_neg h1]
      by_cases h2 : c.toNat < 2048
      · rw [if_pos h2]
        simp only [List.map_cons, List.map_nil, List.cons_append, List.nil_append]
        rw [utf8Run_start2 _ _ (by omega), utf8Run_last _ _ _ _ (hcont _ (by omega))
          (by simp only [e0]; omega)]
        simp only [e0]
        have hn : (c.toNat / 64) * 64 + c.toNat % 64 = c.toNat := by omega
        rw [hn, Char.ofNat_toNat]
      · rw [if_neg h2]
        by_cases h3 : c.toNat < 65536
        · rw [if_pos h3]
          simp only [List.map_cons, List.map_nil, List.cons_append, List.nil_append]
          rw [utf8Run_start3 _ _ (by omega),
            utf8Run_cont _ _ _ _ _ (hcont _ (by omega)) (by omega)]
          simp only [e0, show (2 : Nat) - 1 = 1 from rfl]
          rw [utf8Run_last _ _ _ _ (hcont _ (by omega)) (by simp only [e0]; omega)]
          simp only [e0]
          have hn : (c.toNat / 4096 * 64 + c.toNat / 64 % 64) * 64 + c.toNat % 64 = c.toNat := by
            omega
          rw [hn, Char.ofNat_toNat]
        · rw [if_neg h3]
          simp only [List.map_cons, List.map_nil, List.cons_append, List.nil_append]
          rw [utf8Run_start4 _ _ (by omega),
            utf8Run_cont _ _ _ _ _ (hcont _ (by omega)) (by omega)]
          simp only [e0, show (3 : Nat) - 1 = 2 from rfl]
          rw [utf8Run_cont _ _ _ _ _ (hcont _ (by omega)) (by omega)]
          simp only [e0, show (2 : Nat) - 1 = 1 from rfl]
          rw [utf8Run_last _ _ _ _ (hcont _ (by omega)) (by simp only [e0]; omega)]
          simp only [e0]
          have hn : ((c.toNat / 262144 * 64 + c.toNat / 4096 % 64) * 64 + c.toNat / 64 % 64) * 64 +
              c.toNat % 64 = c.toNat := by omega
          rw [hn, Char.ofNat_toNat]

theorem utf8Run_encFlat (s : JStr) : utf8Run none (s.flatMap encToks) = .ok s := by
  induction s with
  | nil => rfl
  | cons c s ih =>
    rw [List.flatMap_cons, utf8Run_encToks, ih]
    rfl

theorem decodeURIComponent_encode (s : JStr) :
    decodeURIComponent (encodeURIComponent s) = .ok s := by
  unfold decodeURIComponent
  rw [scanPct_encode]
  exact utf8Run_encFlat s

theorem encChar_chars (c k : Char) (h : k ∈ encChar c) :
    isUnreservedChar k = true ∨ k = Char.ofNat 37 ∨
    (48 ≤ k.toNat ∧ k.toNat ≤ 57) ∨ (65 ≤ k.toNat ∧ k.toNat ≤ 70) := by
  unfold encChar at h
  split at h
  · rename_i hu
    simp only [List.mem_singleton] at h
    subst h
    exact Or.inl hu
  · simp only [List.mem_flatMap] at h
    obtain ⟨b, hb, hk⟩ := h
    have hb256 : b < 256 :=
      utf8Bytes_bound c.toNat (by rcases char_toNat_valid c with h | h <;> omega) b hb
    unfold pctByte at hk
    simp only [List.mem_cons, List.mem_singleton, List.not_mem_nil, or_false] at hk
    rcases hk with rfl | rfl | rfl
    · exact Or.inr (Or.inl rfl)
    · exact Or.inr (Or.inr (hexDigitChar_range (b / 16) (by omega)))
    · exact Or.inr (Or.inr (hexDigitChar_range (b % 16) (by omega)))

theorem mem_encode_toNat (s : JStr) (k : Char) (h : k ∈ encodeURIComponent s) :
    k.toNat ≠ 38 ∧ k.toNat ≠ 61 := by
  unfold encodeURIComponent at h
  simp only [List.mem_flatMap] at h
  obtain ⟨c, _, hk⟩ := h
  rcases encChar_chars c k hk with h | h | h | h
  · simp only [isUnreservedChar, Bool.or_eq_true, decide_eq_true_eq, Bool.and_eq_true] at h
    omega
  · subst h; decide
  · omega
  · omega

/-! ## Association lists -/

theorem List_lookup_eq_lookupKey {α : Type} (m : List (JStr × α)) (k : JStr) :
    m.lookup k = lookupKey m k := by
  induction m with
  | nil => rfl
  | cons kv rest ih =>
    obtain ⟨k0, v⟩ := kv
    simp only [List.lookup, lookupKey]
    by_cases h : k0 = k
    · subst h; simp
    · have hb : (k == k0) = false := beq_eq_false_iff_ne.mpr (fun e => h e.symm)
      simp [hb, h, ih]

theorem lookupKey_append {α : Type} (l₁ l₂ : List (JStr × α)) (k : JStr) :
    lookupKey (l₁ ++ l₂) k =
      match lookupKey l₁ k with
      | some v => some v
      | none => lookupKey l₂ k := by
  induction l₁ with
  | nil => rfl
  | cons kv rest ih =>
    obtain ⟨k0, v⟩ := kv
    simp only [List.cons_append, lookupKey]
    by_cases h : k0 = k
    · simp [h]
    · simp [h, ih]

theorem lookupKey_append_none {α : Type} (l₁ l₂ : List (JStr × α)) (k : JStr)
    (h : lookupKey l₁ k = none) : lookupKey (l₁ ++ l₂) k = lookupKey l₂ k := by
  rw [lookupKey_append, h]

theorem lookupKey_singleton_ne {α : Type} (k0 k : JStr) (v : α) (h : ¬ k0 = k) :
    lookupKey [(k0, v)] k = none := by
  simp [lookupKey, h]

theorem lookupKey_setKey_self {α : Type} (m : List (JStr × α)) (k : JStr) (v : α) :
    lookupKey (setKey m k v) k = some v := by
  induction m with
  | nil => simp [setKey, lookupKey]
  | cons kv rest ih =>
    obtain ⟨k0, v0⟩ := kv
    simp only [setKey]
    by_cases h : k0 = k
    · rw [if_pos h]; simp [lookupKey]
    · rw [if_neg h]; simp [lookupKey, h, ih]

theorem setKey_of_lookup_none {α : Type} (m : List (JStr × α)) (k : JStr) (v : α)
    (h : lookupKey m k = none) : setKey m k v = m ++ [(k, v)] := by
  induction m with
  | nil => rfl
  | cons kv rest ih =>
    obtain ⟨k0, v0⟩ := kv
    simp only [lookupKey] at h
    by_cases hk : k0 = k
    · rw [if_pos hk] at h; cases h
    · rw [if_neg hk] at h
      simp [setKey, hk, ih h]

theorem lookupKey_none_forall {α : Type} (m : List (JStr × α)) (k : JStr)
    (h : lookupKey m k = none) : ∀ kv ∈ m, ¬ kv.1 = k := by
  induction m with
  | nil => simp
  | cons kv rest ih =>
    obtain ⟨k0, v0⟩ := kv
    simp only [lookupKey] at h
    by_cases hk : k0 = k
    · rw [if_pos hk] at h; cases h
    · rw [if_neg hk] at h
      intro x hx
      rcases List.mem_cons.mp hx with rfl | hx
      · exact hk
      · exact ih h x hx

/-- A key whose first character differs cannot collide with `filter.<c>`. -/
theorem filterKey_ne (c k : JStr) (hk : k.head? ≠ some (Char.ofNat 102)) :
    ¬ (str "filter." ++ c) = k := by
  intro hc
  exact hk (hc ▸ rfl)

theorem lookupKey_filterSeg (l : List (JStr × ParamValue)) (k : JStr)
    (h : ∀ c : JStr, ¬ (str "filter." ++ c) = k) :
    lookupKey (l.map (fun cv => (str "filter." ++ cv.1, cv.2))) k = none := by
  induction l with
  | nil => rfl
  | cons cv rest ih =>
    simp only [List.map_cons, lookupKey]
    rw [if_neg (h cv.1)]
    exact ih

/-! ## The flat form of the serializer loops -/

theorem foldl_arr_pairs (k : JStr) (vs : List JStr) (acc : List JStr) :
    vs.foldl (fun ps v => if v ≠ [] then ps ++ [pairStr k v] else ps) acc
      = acc ++ (vs.filter (· ≠ [])).map (pairStr k) := by
  induction vs generalizing acc with
  | nil => simp
  | cons v rest ih =>
    simp only [List.foldl_cons, List.filter_cons]
    by_cases hv : v = []
    · simp only [hv]
      rw [if_neg (by simp)]
      have : (decide ¬([] : JStr) = []) = false := by simp
      rw [this]
      exact ih acc
    · rw [if_pos hv]
      have : (decide ¬v = []) = true := by simp [hv]
      rw [this]
      rw [ih (acc ++ [pairStr k v])]
      simp

theorem qsPairs_eq_flat (params : ParamMap) : qsPairs params = flatQsPairs params := by
  have aux : ∀ (l : ParamMap) (acc : List JStr),
      l.foldl
        (fun pairs kv =>
          match kv.2 with
          | .arr vs => vs.foldl (fun ps v => if v ≠ [] then ps ++ [pairStr kv.1 v] else ps) pairs
          | .single v => if v ≠ [] then pairs ++ [pairStr kv.1 v] else pairs)
        acc = acc ++ flatQsPairs l := by
    intro l
    induction l with
    | nil => simp [flatQsPairs]
    | cons kv rest ih =>
      intro acc
      obtain ⟨k, v⟩ := kv
      simp only [List.foldl_cons, flatQsPairs, List.flatMap_cons]
      cases v with
      | single s =>
        simp only []
        by_cases hs : s = []
        · simp only [hs]
          rw [if_neg (by simp), ih acc]
          simp [flatQsPairs]
        · rw [if_pos hs, ih (acc ++ [pairStr k s])]
          simp [flatQsPairs, hs]
      | arr vs =>
        simp only []
        rw [foldl_arr_pairs, ih]
        simp [flatQsPairs]
  exact aux params []

theorem toURLSearchParams_flat (b : PaginateQueryBuilder) :
    b.toURLSearchParams = b.toParams.flatMap (fun kv =>
      match kv.2 with
      | .single v => [(kv.1, v)]
      | .arr vs => vs.map (fun v => (kv.1, v))) := by
  have aux : ∀ (l : ParamMap) (acc : List (JStr × JStr)),
      l.foldl
        (fun usp kv =>
          match kv.2 with
          | .arr vs => usp ++ vs.map (fun v => (kv.1, v))
          | .single v => usp ++ [(kv.1, v)])
        acc = acc ++ l.flatMap (fun kv =>
          match kv.2 with
          | .single v => [(kv.1, v)]
          | .arr vs => vs.map (fun v => (kv.1, v))) := by
    intro l
    induction l with
    | nil => simp
    | cons kv rest ih =>
      intro acc
      obtain ⟨k, v⟩ := kv
      simp only [List.foldl_cons, List.flatMap_cons]
      cases v with
      | single s => simp only []; rw [ih]; simp
      | arr vs => simp only []; rw [ih]; simp
  exact aux b.toParams []
example : jsIntToStr (-5) = str "-5" := by decide
example : parseJsInt (str "12ab") = some 12 := by decide
example : parseJsInt (str "-30") = some (-30) := by decide
example : parseJsInt (str "x1") = none := by decide
example : jsSplit (Char.ofNat 38) (str "a&&b") = [str "a", [], str "b"] := by decide
example : lastIdxOf? (Char.ofNat 58) (str "a:b:c") = some 3 := by decide

/-! ## Claim theorems: the filter token codec -/

/-- C2: contrary to the claim (and to the repository's own `filter.spec.ts`,
which expects an error for a non-`$null` operator without a value),
`buildFilterToken` in the src/lib/filter.ts snapshot never raises: with no
value supplied it silently returns the token without a value segment — here
evaluated at the failing input `{ operator: $eq }` (and at every operator).  -/
theorem buildFilterToken_omits_missing_value :
    buildFilterToken ⟨none, none, FilterOperator.EQ, none⟩ = str "$eq" ∧
    ∀ op : FilterOperator, buildFilterToken ⟨none, none, op, none⟩ = op.render := by
  constructor
  · rfl
  · intro op
    cases op <;> rfl

/-- C6: with the null-check operator, `buildFilterToken` returns exactly
`"$null"` whatever value is supplied (including numbers and arrays), with no
value segment appended. -/
theorem buildFilterToken_null_ignores_value :
    ∀ v : Option FilterValue,
      buildFilterToken ⟨none, none, FilterOperator.NULL, v⟩ = str "$null" := by
  intro v
  rfl

/-! ## Claim theorems: `toParams` -/

/-- C3: the serialized param map has the key `withDeleted` (bound to the
literal string `"true"`) exactly when the flag is `some true`; when the flag
is unset or explicitly `false` the key is absent. -/
theorem toParams_withDeleted (b : PaginateQueryBuilder) :
    lookupKey b.toParams (str "withDeleted")
      = if b._withDeleted = some true then some (.single (str "true")) else none := by
  unfold PaginateQueryBuilder.toParams
  simp only [List.append_assoc]
  rw [lookupKey_append_none _ _ _ (by
        cases b._page with
        | none => rfl
        | some n =>
          apply lookupKey_singleton_ne
          decide),
      lookupKey_append_none _ _ _ (by
        cases b._limit with
        | none => rfl
        | some n =>
          apply lookupKey_singleton_ne
          decide),
      lookupKey_append_none _ _ _ (by
        split
        · apply lookupKey_singleton_ne
          decide
        · rfl),
      lookupKey_append_none _ _ _ (by
        cases b._search with
        | none => rfl
        | some s =>
          simp only []
          split
          · apply lookupKey_singleton_ne
            decide
          · rfl),
      lookupKey_append_none _ _ _ (by
        split
        · apply lookupKey_singleton_ne
          decide
        · rfl),
      lookupKey_append_none _ _ _ (by
        split
        · apply lookupKey_singleton_ne
          decide
        · rfl),
      lookupKey_append_none _ _ _ (by
        cases b._cursor with
        | none => rfl
        | some c =>
          apply lookupKey_singleton_ne
          decide)]
  by_cases hwd : b._withDeleted = some true
  · rw [if_pos hwd, if_pos hwd]
    simp [lookupKey]
  · rw [if_neg hwd, if_neg hwd, List.nil_append]
    exact lookupKey_filterSeg _ _ (fun c => filterKey_ne c _ (by decide))

/-- C7 (amended): `filter` appends the new token(s) for a column after the
previously stored ones, preserving their order, whenever the column's
current entry is not the empty-string scalar (absent and truthy entries
both accumulate); in particular two successive single-token `eq` filters on
`name` serialize to the two-element token list `["$eq:A", "$eq:B"]` under
`filter.name`.  As literally stated — for every call sequence — the claim
fails: an existing empty-string scalar entry is falsy in JS, so the next
call on that column replaces it instead of appending. -/
theorem filter_accumulates :
    (∀ (b : PaginateQueryBuilder) (c : JStr) (t : ParamValue),
        lookupKey b._filter c ≠ some (ParamValue.single []) →
        entryTokens (b.filter c t) c = entryTokens b c ++ tokList t)
    ∧ lookupKey (((createPaginateParams.filter (str "name") (.single (eq (.s (str "A"))))).filter
          (str "name") (.single (eq (.s (str "B"))))).toParams) (str "filter.name")
        = some (.arr [str "$eq:A", str "$eq:B"]) := by
  constructor
  · intro b c t hne
    unfold PaginateQueryBuilder.filter
    simp only [List_lookup_eq_lookupKey]
    unfold entryTokens
    simp only [lookupKey_setKey_self]
    cases hl : lookupKey b._filter c with
    | some e =>
      cases e with
      | single s =>
        have hs : s ≠ [] := by
          intro h0
          exact hne (by rw [hl, h0])
        rw [if_pos (show PaginateQueryBuilder.truthy (some (ParamValue.single s)) = true by
          simp [PaginateQueryBuilder.truthy, List.isEmpty_iff, hs])]
        cases t <;> rfl
      | arr l =>
        rw [if_pos (show PaginateQueryBuilder.truthy (some (ParamValue.arr l)) = true from rfl)]
        cases t <;> rfl
    | none =>
      rw [if_neg (by decide)]
      cases t with
      | single s => rfl
      | arr l =>
        cases l with
        | nil => rfl
        | cons x xs => cases xs <;> rfl
  · decide

/-- C7, counterexample to the literal claim: after `filter('name', '')` the
stored entry is the empty-string scalar, which is falsy, so the next
`filter('name', 'B')` replaces it — the entry ends as `'B'`, not
`['', 'B']`. -/
theorem filter_accumulates_counterexample :
    entryTokens ((createPaginateParams.filter (str "name") (ParamValue.single [])).filter
        (str "name") (ParamValue.single (str "B"))) (str "name")
      ≠ entryTokens (createPaginateParams.filter (str "name") (ParamValue.single []))
          (str "name")
        ++ tokList (ParamValue.single (str "B")) := by decide

theorem filter_accumulates_witness :
    lookupKey (createPaginateParams.filter (str "name")
        (ParamValue.single (str "A")))._filter (str "name") ≠ some (ParamValue.single [])
    ∧ entryTokens ((createPaginateParams.filter (str "name")
          (ParamValue.single (str "A"))).filter (str "name")
          (ParamValue.single (str "B"))) (str "name")
        = entryTokens (createPaginateParams.filter (str "name")
            (ParamValue.single (str "A"))) (str "name")
          ++ tokList (ParamValue.single (str "B")) :=
  ⟨by decide, filter_accumulates.1 _ _ _ (by decide)⟩

/-! ## Claim theorems: `toQueryString` -/

/-- C8: `toQueryString` produces exactly one percent-encoded `key=value`
fragment per non-empty value (array values expanded into repeated
fragments, never combined), joined with `&` and prefixed with `?` when at
least one fragment exists, and the empty string otherwise; in particular an
empty builder serializes to the empty string. -/
theorem toQueryString_flat :
    (∀ params : ParamMap,
        toQueryString params =
          if flatQsPairs params = [] then []
          else Char.ofNat 63 :: joinSep (Char.ofNat 38) (flatQsPairs params))
    ∧ createPaginateParams.toQueryStr = [] := by
  constructor
  · intro params
    unfold toQueryString
    rw [qsPairs_eq_flat]
    by_cases h : flatQsPairs params = []
    · rw [if_pos h, h]
      simp
    · rw [if_neg h, if_pos (by simpa [List.length_eq_zero] using h)]
  · rfl

theorem ne_filterKey (k c : JStr) (hk : k.head? ≠ some (Char.ofNat 102)) :
    ¬ k = str "filter." ++ c := by
  intro e
  exact hk (by rw [e]; rfl)

theorem filterKey_inj (c' c : JStr) (h : str "filter." ++ c' = str "filter." ++ c) :
    c' = c := by
  exact List.append_cancel_left h

theorem lookupKey_filterSeg_ne (l : List (JStr × ParamValue)) (c : JStr)
    (h : ∀ kv ∈ l, ¬ kv.1 = c) :
    lookupKey (l.map (fun cv => (str "filter." ++ cv.1, cv.2))) (str "filter." ++ c) = none := by
  induction l with
  | nil => rfl
  | cons kv rest ih =>
    simp only [List.map_cons, lookupKey]
    rw [if_neg (fun e => h kv (by simp) (filterKey_inj _ _ e))]
    exact ih (fun x hx => h x (List.mem_cons_of_mem kv hx))

theorem lookupKey_toParams_filterKey_none (b : PaginateQueryBuilder) (c : JStr)
    (h : lookupKey b._filter c = none) :
    lookupKey b.toParams (str "filter." ++ c) = none := by
  unfold PaginateQueryBuilder.toParams
  simp only [List.append_assoc]
  rw [lookupKey_append_none _ _ _ (by
        cases b._page with
        | none => rfl
        | some n =>
          apply lookupKey_singleton_ne
          exact ne_filterKey _ _ (by decide)),
      lookupKey_append_none _ _ _ (by
        cases b._limit with
        | none => rfl
        | some n =>
          apply lookupKey_singleton_ne
          exact ne_filterKey _ _ (by decide)),
      lookupKey_append_none _ _ _ (by
        split
        · apply lookupKey_singleton_ne
          exact ne_filterKey _ _ (by decide)
        · rfl),
      lookupKey_append_none _ _ _ (by
        cases b._search with
        | none => rfl
        | some s =>
          simp only []
          split
          · apply lookupKey_singleton_ne
            exact ne_filterKey _ _ (by decide)
          · rfl),
      lookupKey_append_none _ _ _ (by
        split
        · apply lookupKey_singleton_ne
          exact ne_filterKey _ _ (by decide)
        · rfl),
      lookupKey_append_none _ _ _ (by
        split
        · apply lookupKey_singleton_ne
          exact ne_filterKey _ _ (by decide)
        · rfl),
      lookupKey_append_none _ _ _ (by
        cases b._cursor with
        | none => rfl
        | some cu =>
          apply lookupKey_singleton_ne
          exact ne_filterKey _ _ (by decide)),
      lookupKey_append_none _ _ _ (by
        split
        · apply lookupKey_singleton_ne
          exact ne_filterKey _ _ (by decide)
        · rfl)]
  exact lookupKey_filterSeg_ne _ _ (lookupKey_none_forall _ _ h)

/-- C10: on a column with no existing entry, `filter(c, [])` stores an empty
token array: the param map then has key `filter.c` bound to the empty list,
while the query string is unchanged — no fragment at all is emitted for that
key. -/
theorem filter_empty_token_array (b : PaginateQueryBuilder) (c : JStr)
    (h : lookupKey b._filter c = none) :
    lookupKey (b.filter c (.arr [])).toParams (str "filter." ++ c) = some (.arr [])
    ∧ (b.filter c (.arr [])).toQueryStr = b.toQueryStr := by
  have hb' : b.filter c (.arr [])
      = { b with _filter := b._filter ++ [(c, ParamValue.arr [])] } := by
    unfold PaginateQueryBuilder.filter
    simp only [List_lookup_eq_lookupKey, h]
    rw [if_neg (by decide)]
    rw [setKey_of_lookup_none _ _ _ h]
  have hparams : (b.filter c (.arr [])).toParams
      = b.toParams ++ [(str "filter." ++ c, ParamValue.arr [])] := by
    rw [hb']
    unfold PaginateQueryBuilder.toParams
    simp only []
    simp only [List.map_append, List.map_cons, List.map_nil, List.append_assoc]
  constructor
  · rw [hparams, lookupKey_append, lookupKey_toParams_filterKey_none b c h]
    simp [lookupKey]
  · show toQueryString (b.filter c (.arr [])).toParams = toQueryString b.toParams
    rw [hparams]
    unfold toQueryString
    rw [qsPairs_eq_flat, qsPairs_eq_flat,
      show flatQsPairs (b.toParams ++ [(str "filter." ++ c, ParamValue.arr [])])
          = flatQsPairs b.toParams by simp [flatQsPairs]]

theorem filter_empty_token_array_witness :
    lookupKey (createPaginateParams.page 1)._filter (str "name") = none
    ∧ (lookupKey ((createPaginateParams.page 1).filter (str "name") (.arr [])).toParams
        (str "filter." ++ str "name") = some (.arr [])
      ∧ ((createPaginateParams.page 1).filter (str "name") (.arr [])).toQueryStr
          = (createPaginateParams.page 1).toQueryStr) :=
  ⟨by decide, filter_empty_token_array (createPaginateParams.page 1) (str "name") (by decide)⟩

/-! ## Claim theorems: `toURLSearchParams` -/

/-- C9 (amended): for builder states none of whose param-map values is the
empty string, the ordered pair sequence of `toURLSearchParams` is exactly
the (decoded) sequence of `key=value` fragments of the query string — same
pairs, same order, same repeated-key expansion.  (As stated over every
builder state the claim fails: `toURLSearchParams` keeps empty-string
values that `toQueryString` drops.) -/
theorem toURLSearchParams_matches_queryString (b : PaginateQueryBuilder)
    (h : noEmptyValues b.toParams = true) :
    b.toURLSearchParams.map (fun kv => pairStr kv.1 kv.2) = flatQsPairs b.toParams := by
  rw [toURLSearchParams_flat]
  unfold noEmptyValues at h
  rw [List.all_eq_true] at h
  unfold flatQsPairs
  generalize b.toParams = m at h ⊢
  induction m with
  | nil => rfl
  | cons kv rest ih =>
    obtain ⟨k, v⟩ := kv
    simp only [List.flatMap_cons, List.map_append]
    rw [ih (fun x hx => h x (List.mem_cons_of_mem _ hx))]
    congr 1
    have hv := h (k, v) (by simp)
    cases v with
    | single s =>
      simp only [] at hv ⊢
      rw [if_pos (by simpa [List.isEmpty_iff] using hv)]
      rfl
    | arr vs =>
      simp only [] at hv ⊢
      rw [List.all_eq_true] at hv
      rw [show vs.filter (· ≠ []) = vs from List.filter_eq_self.mpr (fun v hv' => by
        simpa [List.isEmpty_iff] using hv v hv'), List.map_map]
      rfl

/-- C9 counterexample: with an empty cursor string the two sequences differ —
`toURLSearchParams` emits the pair `("cursor", "")` while `toQueryString`
emits no fragment. -/
theorem toURLSearchParams_queryString_counterexample :
    ¬ ((createPaginateParams.cursor []).toURLSearchParams.map (fun kv => pairStr kv.1 kv.2)
        = flatQsPairs (createPaginateParams.cursor []).toParams) := by
  decide

theorem toURLSearchParams_matches_queryString_witness :
    noEmptyValues (createPaginateParams.page 1).toParams = true
    ∧ (createPaginateParams.page 1).toURLSearchParams.map (fun kv => pairStr kv.1 kv.2)
        = flatQsPairs (createPaginateParams.page 1).toParams :=
  ⟨by decide, toURLSearchParams_matches_queryString (createPaginateParams.page 1) (by decide)⟩

/-! ## Claim theorems: parser tolerance -/

theorem dispatchKV_not_recognized (acc : ParseAcc) (k v : JStr)
    (h : recognizedKV k v = false) : dispatchKV acc k v = acc := by
  unfold dispatchKV
  unfold recognizedKV at h
  by_cases h1 : k = str "page"
  · rw [if_pos h1] at h ⊢
    cases hp : parseJsInt v with
    | some n => rw [hp] at h; cases h
    | none => rfl
  · rw [if_neg h1] at h ⊢
    by_cases h2 : k = str "limit"
    · rw [if_pos h2] at h ⊢
      cases hp : parseJsInt v with
      | some n => rw [hp] at h; cases h
      | none => rfl
    · rw [if_neg h2] at h ⊢
      by_cases h3 : k = str "sortBy"
      · rw [if_pos h3] at h ⊢
        cases hs : lastIdxOf? SEP v with
        | some i => rw [hs] at h; cases h
        | none => rfl
      · rw [if_neg h3] at h ⊢
        by_cases h4 : k = str "search"
        · rw [if_pos h4] at h; cases h
        · rw [if_neg h4] at h ⊢
          by_cases h5 : k = str "searchBy"
          · rw [if_pos h5] at h; cases h
          · rw [if_neg h5] at h ⊢
            by_cases h6 : k = str "select"
            · rw [if_pos h6] at h; cases h
            · rw [if_neg h6] at h ⊢
              by_cases h7 : k = str "cursor"
              · rw [if_pos h7] at h; cases h
              · rw [if_neg h7] at h ⊢
                by_cases h8 : k = str "withDeleted"
                · rw [if_pos h8] at h; cases h
                · rw [if_neg h8] at h ⊢
                  simp [h]

theorem processPair_eq_applyFrag (acc : ParseAcc) (p : JStr)
    (h : pairDecodes p = true) : processPair acc p = .ok (applyFrag acc p) := by
  unfold processPair applyFrag
  unfold pairDecodes at h
  by_cases hp : p = []
  · rw [if_pos hp]
    subst hp
    rfl
  · rw [if_neg hp]
    cases hidx : idxOf? (Char.ofNat 61) p with
    | none => rfl
    | some i =>
      rw [hidx] at h
      simp only [Bool.and_eq_true, Bool.not_eq_eq_eq_not, Bool.not_true,
        decide_eq_false_iff_not] at h
      cases hk : decodeURIComponent (p.take i) with
      | error e => cases e; exact absurd hk h.1
      | ok k =>
        cases hv : decodeURIComponent (p.drop (i + 1)) with
        | error e => cases e; exact absurd hv h.2
        | ok v => simp only [hk, hv]; rfl

theorem applyFrag_not_good (acc : ParseAcc) (p : JStr)
    (hg : goodFrag p = false) : applyFrag acc p = acc := by
  unfold applyFrag
  unfold goodFrag at hg
  cases hidx : idxOf? (Char.ofNat 61) p with
  | none => rfl
  | some i =>
    rw [hidx] at hg
    simp only [] at hg ⊢
    cases hk : decodeURIComponent (p.take i) with
    | error e => simp only [hk]
    | ok k =>
      cases hv : decodeURIComponent (p.drop (i + 1)) with
      | error e => simp only [hk, hv]
      | ok v =>
        rw [hk, hv] at hg
        simp only [hk, hv]
        exact dispatchKV_not_recognized acc k v hg

theorem foldlM_processPair (ps : List JStr) (acc : ParseAcc)
    (h : ∀ p ∈ ps, pairDecodes p = true) :
    ps.foldlM processPair acc = .ok (ps.foldl applyFrag acc) := by
  induction ps generalizing acc with
  | nil => rfl
  | cons p ps ih =>
    rw [List.foldlM_cons, processPair_eq_applyFrag acc p (h p (by simp))]
    show (ps.foldlM processPair (applyFrag acc p)) = _
    rw [ih (applyFrag acc p) (fun x hx => h x (List.mem_cons_of_mem p hx))]
    rfl

theorem foldl_applyFrag_filter (ps : List JStr) (acc : ParseAcc) :
    ps.foldl applyFrag acc = (ps.filter goodFrag).foldl applyFrag acc := by
  induction ps generalizing acc with
  | nil => rfl
  | cons p ps ih =>
    simp only [List.foldl_cons, List.filter_cons]
    cases hg : goodFrag p with
    | true => simp only [List.foldl_cons]; exact ih (applyFrag acc p)
    | false => rw [applyFrag_not_good acc p hg]; exact ih acc

/-- C4 (amended): `fromQueryString` raises only on a fragment whose key or
value fails percent-decoding (JS `decodeURIComponent` throws `URIError` and
the parser has no handler).  Whenever every fragment decodes, parsing
succeeds, and the result is exactly that of applying the recognized
fragments only: fragments without `=`, with an unrecognized key, with a
non-numeric `page`/`limit` value or a colon-free `sortBy` value are silently
skipped. -/
theorem fromQueryString_tolerant (qs : JStr)
    (h : ∀ p ∈ jsSplit (Char.ofNat 38) (stripQM qs), pairDecodes p = true) :
    fromQueryString qs
      = .ok (finalizeParse
          (((jsSplit (Char.ofNat 38) (stripQM qs)).filter goodFrag).foldl
            applyFrag ⟨{}, [], []⟩)) := by
  unfold fromQueryString
  by_cases hq : stripQM qs = []
  · rw [if_pos hq, hq]
    rfl
  · rw [if_neg hq]
    show (jsSplit (Char.ofNat 38) (stripQM qs)).foldlM processPair ⟨{}, [], []⟩ >>=
        (fun acc => Except.ok (finalizeParse acc)) = _
    rw [foldlM_processPair _ _ h, foldl_applyFrag_filter]
    rfl

/-- C4 counterexample: a malformed percent-escape in a `key=value` fragment
makes `fromQueryString` raise (JS: an uncaught `URIError`), so as stated —
"never raises, malformed percent-encodings are skipped" — the claim fails. -/
theorem fromQueryString_malformed_escape_counterexample :
    fromQueryString (str "?a=%") = .error () := by decide

theorem fromQueryString_tolerant_witness :
    (∀ p ∈ jsSplit (Char.ofNat 38) (stripQM (str "?page=2&bogus&x=1")), pairDecodes p = true)
    ∧ fromQueryString (str "?page=2&bogus&x=1")
        = .ok (finalizeParse
            (((jsSplit (Char.ofNat 38) (stripQM (str "?page=2&bogus&x=1"))).filter
              goodFrag).foldl applyFrag ⟨{}, [], []⟩)) :=
  ⟨by decide, fromQueryString_tolerant (str "?page=2&bogus&x=1") (by decide)⟩

/-! ## Round trip, part 1: the query string parses back into the decoded pairs -/

theorem mem_pairStr_ne_amp (k v : JStr) (x : Char) (hx : x ∈ pairStr k v) : x.toNat ≠ 38 := by
  unfold pairStr at hx
  rcases List.mem_append.mp hx with h | h
  · exact (mem_encode_toNat k x h).1
  · rcases List.mem_cons.mp h with rfl | h
    · decide
    · exact (mem_encode_toNat v x h).1

theorem pairStr_ne_nil (k v : JStr) : pairStr k v ≠ [] := by
  unfold pairStr
  intro h
  have := (List.append_eq_nil.mp h).2
  cases this

theorem flatQsPairs_eq_map_flatKVs (params : ParamMap) :
    flatQsPairs params = (flatKVs params).map (fun kv => pairStr kv.1 kv.2) := by
  unfold flatQsPairs flatKVs
  induction params with
  | nil => rfl
  | cons kv rest ih =>
    simp only [List.flatMap_cons, List.map_append, ih]
    congr 1
    cases hv : kv.2 with
    | single s =>
      by_cases hs : s = []
      · simp [hs]
      · simp [hs]
    | arr vs => simp [List.map_map]

theorem processPair_pairStr (acc : ParseAcc) (k v : JStr) :
    processPair acc (pairStr k v) = .ok (dispatchKV acc k v) := by
  unfold processPair
  rw [if_neg (pairStr_ne_nil k v)]
  unfold pairStr
  rw [idxOf?_sep_append _ _ _ (fun hmem => (mem_encode_toNat k _ hmem).2 (by decide))]
  simp only []
  rw [take_length_append, drop_length_succ_append, decodeURIComponent_encode,
    decodeURIComponent_encode]
  rfl

theorem foldlM_processPair_map (kvs : List (JStr × JStr)) (acc : ParseAcc) :
    ((kvs.map (fun kv => pairStr kv.1 kv.2)).foldlM processPair acc)
      = .ok (kvs.foldl (fun a kv => dispatchKV a kv.1 kv.2) acc) := by
  induction kvs generalizing acc with
  | nil => rfl
  | cons kv rest ih =>
    simp only [List.map_cons, List.foldlM_cons, List.foldl_cons]
    rw [processPair_pairStr]
    show (rest.map (fun kv => pairStr kv.1 kv.2)).foldlM processPair (dispatchKV acc kv.1 kv.2) = _
    exact ih _

theorem fromQueryString_toQueryStr (b : PaginateQueryBuilder)
    (hne : flatKVs b.toParams ≠ []) :
    fromQueryString b.toQueryStr
      = .ok (finalizeParse
          ((flatKVs b.toParams).foldl (fun a kv => dispatchKV a kv.1 kv.2) ⟨{}, [], []⟩)) := by
  have hpairs : flatQsPairs b.toParams = (flatKVs b.toParams).map (fun kv => pairStr kv.1 kv.2) :=
    flatQsPairs_eq_map_flatKVs _
  obtain ⟨kv0, kvrest, hkv⟩ : ∃ kv0 kvrest, flatKVs b.toParams = kv0 :: kvrest := by
    cases h : flatKVs b.toParams with
    | nil => exact absurd h hne
    | cons a r => exact ⟨a, r, rfl⟩
  have hqp : b.toQueryStr
      = Char.ofNat 63 :: joinSep (Char.ofNat 38) (flatQsPairs b.toParams) := by
    show toQueryString b.toParams = _
    unfold toQueryString
    rw [qsPairs_eq_flat]
    rw [if_pos (by rw [hpairs, hkv]; simp)]
  rw [hqp]
  unfold fromQueryString
  have hstrip : stripQM (Char.ofNat 63 :: joinSep (Char.ofNat 38) (flatQsPairs b.toParams))
      = joinSep (Char.ofNat 38) (flatQsPairs b.toParams) := by
    simp [stripQM]
  rw [hstrip]
  have hXne : joinSep (Char.ofNat 38) (flatQsPairs b.toParams) ≠ [] := by
    rw [hpairs, hkv]
    simp only [List.map_cons]
    exact joinSep_ne_nil_of_head _ _ _ (pairStr_ne_nil _ _)
  rw [if_neg hXne]
  have hsplit : jsSplit (Char.ofNat 38) (joinSep (Char.ofNat 38) (flatQsPairs b.toParams))
      = flatQsPairs b.toParams := by
    apply jsSplit_joinSep
    · rw [hpairs, hkv]
      simp
    · intro p hp
      rw [hpairs] at hp
      obtain ⟨kv, _, rfl⟩ := List.mem_map.mp hp
      intro hmem
      exact mem_pairStr_ne_amp _ _ _ hmem (by decide)
  rw [hsplit, hpairs, foldlM_processPair_map]
  rfl

/-! ## Round trip, part 2: the decoded pairs of a serialized builder -/

theorem filter_ne_nil_self (vs : List JStr) (h : ∀ v ∈ vs, v ≠ []) :
    vs.filter (· ≠ []) = vs :=
  List.filter_eq_self.mpr (fun v hv => by simpa using h v hv)

theorem flatKVs_append (a c : ParamMap) : flatKVs (a ++ c) = flatKVs a ++ flatKVs c := by
  unfold flatKVs
  exact List.flatMap_append a c _

theorem flatKVs_single (k v : JStr) :
    flatKVs [(k, ParamValue.single v)] = if v ≠ [] then [(k, v)] else [] := by
  simp only [flatKVs, List.flatMap_cons, List.flatMap_nil, List.append_nil]

theorem flatKVs_arr (k : JStr) (vs : List JStr) :
    flatKVs [(k, ParamValue.arr vs)] = (vs.filter (· ≠ [])).map (fun v => (k, v)) := by
  simp only [flatKVs, List.flatMap_cons, List.flatMap_nil, List.append_nil]

theorem flatKVs_filterSeg (l : List (JStr × ParamValue))
    (hfil : ∀ cv ∈ l, filterValGood cv.2 = true) :
    flatKVs (l.map (fun cv => (str "filter." ++ cv.1, cv.2)))
      = l.flatMap (fun cv => (tokList cv.2).map (fun v => (str "filter." ++ cv.1, v))) := by
  induction l with
  | nil => rfl
  | cons cv rest ih =>
    have hg := hfil cv (by simp)
    simp only [List.map_cons, List.flatMap_cons]
    rw [show (cv.1, cv.2).1 = cv.1 from rfl]
    have hsplit : flatKVs ((str "filter." ++ cv.1, cv.2)
        :: rest.map (fun cv => (str "filter." ++ cv.1, cv.2)))
        = flatKVs [(str "filter." ++ cv.1, cv.2)]
          ++ flatKVs (rest.map (fun cv => (str "filter." ++ cv.1, cv.2))) := by
      rw [← flatKVs_append]
      rfl
    rw [hsplit, ih (fun x hx => hfil x (List.mem_cons_of_mem cv hx))]
    congr 1
    cases hv : cv.2 with
    | single s =>
      rw [hv] at hg
      simp only [filterValGood] at hg
      have hs : s ≠ [] := by simpa [List.isEmpty_iff] using hg
      rw [flatKVs_single, if_pos hs]
      simp [tokList]
    | arr vs =>
      rw [hv] at hg
      simp only [filterValGood, Bool.and_eq_true, List.all_eq_true] at hg
      rw [flatKVs_arr, filter_ne_nil_self _ (fun v hv' => by
        simpa [List.isEmpty_iff] using hg.2 v hv')]
      simp [tokList]

theorem flatKVs_toParams (b : PaginateQueryBuilder)
    (hsb : ∀ s ∈ b._searchBy, s ≠ [])
    (hsel : b._select ≠ [] → joinSep (Char.ofNat 44) b._select ≠ [])
    (hcur : b._cursor ≠ some [])
    (hfil : ∀ cv ∈ b._filter, filterValGood cv.2 = true) :
    flatKVs b.toParams
      = (match b._page with | some n => [(str "page", jsIntToStr n)] | none => []) ++
        ((match b._limit with | some n => [(str "limit", jsIntToStr n)] | none => []) ++
        ((b._sortBy.map (fun cd => (str "sortBy", cd.1 ++ SEP :: cd.2))) ++
        ((match b._search with
          | some s => if s ≠ [] then [(str "search", s)] else []
          | none => []) ++
        ((b._searchBy.map (fun s => (str "searchBy", s))) ++
        ((if b._select.length ≠ 0 then [(str "select", joinSep (Char.ofNat 44) b._select)]
          else []) ++
        ((match b._cursor with | some c => [(str "cursor", c)] | none => []) ++
        ((if b._withDeleted = some true then [(str "withDeleted", str "true")] else []) ++
        (b._filter.flatMap
          (fun cv => (tokList cv.2).map (fun v => (str "filter." ++ cv.1, v))))))))))) := by
  unfold PaginateQueryBuilder.toParams
  simp only [flatKVs_append, List.append_assoc]
  congr 1
  · cases b._page with
    | none => rfl
    | some n => rw [flatKVs_single, if_pos (jsIntToStr_ne_nil n)]
  congr 1
  · cases b._limit with
    | none => rfl
    | some n => rw [flatKVs_single, if_pos (jsIntToStr_ne_nil n)]
  congr 1
  · by_cases hs : b._sortBy.length ≠ 0
    · rw [if_pos hs, flatKVs_arr]
      rw [filter_ne_nil_self _ (by
        intro v hv
        obtain ⟨cd, _, rfl⟩ := List.mem_map.mp hv
        intro hnil
        exact absurd (List.append_eq_nil.mp hnil).2 (by simp))]
      rw [List.map_map]
      rfl
    · rw [if_neg hs]
      have h0 : b._sortBy = [] := by
        simpa [List.length_eq_zero] using not_not.mp (by simpa using hs)
      rw [h0]
      rfl
  congr 1
  · cases b._search with
    | none => rfl
    | some s =>
      simp only []
      by_cases hs : s = []
      · rw [if_neg (not_not_intro hs), if_neg (not_not_intro hs)]
        rfl
      · rw [if_pos hs, if_pos hs, flatKVs_single, if_pos hs]
  congr 1
  · by_cases hs : b._searchBy.length ≠ 0
    · rw [if_pos hs, flatKVs_arr, filter_ne_nil_self _ hsb]
    · rw [if_neg hs]
      have h0 : b._searchBy = [] := by
        simpa [List.length_eq_zero] using not_not.mp (by simpa using hs)
      rw [h0]
      rfl
  congr 1
  · by_cases hs : b._select.length ≠ 0
    · rw [if_pos hs, if_pos hs, flatKVs_single,
        if_pos (hsel (by simpa [List.length_eq_zero] using hs))]
    · rw [if_neg hs, if_neg hs]
      rfl
  congr 1
  · cases hc : b._cursor with
    | none => rfl
    | some c =>
      rw [flatKVs_single, if_pos (by
        intro hnil
        exact hcur (by rw [hc, hnil]))]
  congr 1
  · by_cases hw : b._withDeleted = some true
    · rw [if_pos hw, if_pos hw, flatKVs_single, if_pos (by decide)]
    · rw [if_neg hw, if_neg hw]
      rfl
  · exact flatKVs_filterSeg b._filter hfil

/-! ## Round trip, part 3: the effect of replaying the decoded pairs -/

theorem dispatchKV_filterKey (acc : ParseAcc) (c v : JStr) :
    dispatchKV acc (str "filter." ++ c) v
      = { acc with filterMap :=
            match acc.filterMap.lookup c with
            | some l => setKey acc.filterMap c (l ++ [v])
            | none => acc.filterMap ++ [(c, [v])] } := by
  unfold dispatchKV
  rw [if_neg (filterKey_ne c (str "page") (by decide)),
      if_neg (filterKey_ne c (str "limit") (by decide)),
      if_neg (filterKey_ne c (str "sortBy") (by decide)),
      if_neg (filterKey_ne c (str "search") (by decide)),
      if_neg (filterKey_ne c (str "searchBy") (by decide)),
      if_neg (filterKey_ne c (str "select") (by decide)),
      if_neg (filterKey_ne c (str "cursor") (by decide)),
      if_neg (filterKey_ne c (str "withDeleted") (by decide)),
      if_pos (by rw [List.isPrefixOf_iff_prefix]; exact List.prefix_append _ _)]
  rw [show (str "filter." ++ c).drop 7 = c from List.drop_left (str "filter.") c]

theorem dfold_page (o : Option Int) (bb : PaginateQueryBuilder) (sbv : List JStr)
    (fm : List (JStr × List JStr)) :
    ((match o with
      | some n => [(str "page", jsIntToStr n)]
      | none => []) : List (JStr × JStr)).foldl (fun a kv => dispatchKV a kv.1 kv.2) ⟨bb, sbv, fm⟩
      = ⟨{ bb with _page := match o with | some n => some n | none => bb._page }, sbv, fm⟩ := by
  cases o with
  | none => rfl
  | some n =>
    simp only [List.foldl_cons, List.foldl_nil]
    have hd : dispatchKV ⟨bb, sbv, fm⟩ (str "page") (jsIntToStr n)
        = match parseJsInt (jsIntToStr n) with
          | some m => ⟨bb.page m, sbv, fm⟩
          | none => ⟨bb, sbv, fm⟩ := rfl
    rw [hd, parseJsInt_jsIntToStr]
    rfl

theorem dfold_limit (o : Option Int) (bb : PaginateQueryBuilder) (sbv : List JStr)
    (fm : List (JStr × List JStr)) :
    ((match o with
      | some n => [(str "limit", jsIntToStr n)]
      | none => []) : List (JStr × JStr)).foldl (fun a kv => dispatchKV a kv.1 kv.2) ⟨bb, sbv, fm⟩
      = ⟨{ bb with _limit := match o with | some n => some n | none => bb._limit }, sbv, fm⟩ := by
  cases o with
  | none => rfl
  | some n =>
    simp only [List.foldl_cons, List.foldl_nil]
    have hd : dispatchKV ⟨bb, sbv, fm⟩ (str "limit") (jsIntToStr n)
        = match parseJsInt (jsIntToStr n) with
          | some m => ⟨bb.limit m, sbv, fm⟩
          | none => ⟨bb, sbv, fm⟩ := rfl
    rw [hd, parseJsInt_jsIntToStr]
    rfl

theorem dfold_sortBy (rules : List (JStr × JStr)) (bb : PaginateQueryBuilder) (sbv : List JStr)
    (fm : List (JStr × List JStr))
    (hdir : ∀ cd ∈ rules, SEP ∉ cd.2) :
    (rules.map (fun cd => (str "sortBy", cd.1 ++ SEP :: cd.2))).foldl
        (fun a kv => dispatchKV a kv.1 kv.2) ⟨bb, sbv, fm⟩
      = ⟨{ bb with _sortBy := bb._sortBy ++ rules }, sbv, fm⟩ := by
  induction rules generalizing bb with
  | nil => simp
  | cons cd rest ih =>
    simp only [List.map_cons, List.foldl_cons]
    have hd : dispatchKV ⟨bb, sbv, fm⟩ (str "sortBy") (cd.1 ++ SEP :: cd.2)
        = match lastIdxOf? SEP (cd.1 ++ SEP :: cd.2) with
          | some i => ⟨bb.sortBy ((cd.1 ++ SEP :: cd.2).take i) ((cd.1 ++ SEP :: cd.2).drop (i + 1)),
              sbv, fm⟩
          | none => ⟨bb, sbv, fm⟩ := rfl
    rw [hd, lastIdxOf?_sep_append _ _ _ (hdir cd (by simp))]
    simp only [take_length_append, drop_length_succ_append]
    rw [ih _ (fun x hx => hdir x (List.mem_cons_of_mem cd hx))]
    simp [PaginateQueryBuilder.sortBy, List.append_assoc]

theorem dfold_search (o : Option JStr) (bb : PaginateQueryBuilder) (sbv : List JStr)
    (fm : List (JStr × List JStr)) :
    ((match o with
      | some s => if s ≠ [] then [(str "search", s)] else []
      | none => []) : List (JStr × JStr)).foldl (fun a kv => dispatchKV a kv.1 kv.2) ⟨bb, sbv, fm⟩
      = ⟨{ bb with _search :=
            match o with
            | some s => if s ≠ [] then some s else bb._search
            | none => bb._search }, sbv, fm⟩ := by
  cases o with
  | none => rfl
  | some s =>
    simp only []
    by_cases hs : s = []
    · rw [if_neg (not_not_intro hs), if_neg (not_not_intro hs)]
      rfl
    · rw [if_pos hs, if_pos hs]
      rfl

theorem dfold_searchBy (cols : List JStr) (bb : PaginateQueryBuilder) (sbv : List JStr)
    (fm : List (JStr × List JStr)) :
    (cols.map (fun s => (str "searchBy", s))).foldl
        (fun a kv => dispatchKV a kv.1 kv.2) ⟨bb, sbv, fm⟩
      = ⟨bb, sbv ++ cols, fm⟩ := by
  induction cols generalizing sbv with
  | nil => simp
  | cons s rest ih =>
    simp only [List.map_cons, List.foldl_cons]
    have hd : dispatchKV ⟨bb, sbv, fm⟩ (str "searchBy") s = ⟨bb, sbv ++ [s], fm⟩ := rfl
    rw [hd, ih (sbv ++ [s])]
    simp

theorem dfold_select (cnd : Prop) [Decidable cnd] (v : JStr) (bb : PaginateQueryBuilder)
    (sbv : List JStr) (fm : List (JStr × List JStr)) :
    ((if cnd then [(str "select", v)] else []) : List (JStr × JStr)).foldl
        (fun a kv => dispatchKV a kv.1 kv.2) ⟨bb, sbv, fm⟩
      = ⟨{ bb with _select := if cnd then jsSplit (Char.ofNat 44) v else bb._select },
          sbv, fm⟩ := by
  by_cases h : cnd
  · rw [if_pos h, if_pos h]
    rfl
  · rw [if_neg h, if_neg h]
    rfl

theorem dfold_cursor (o : Option JStr) (bb : PaginateQueryBuilder) (sbv : List JStr)
    (fm : List (JStr × List JStr)) :
    ((match o with
      | some c => [(str "cursor", c)]
      | none => []) : List (JStr × JStr)).foldl (fun a kv => dispatchKV a kv.1 kv.2) ⟨bb, sbv, fm⟩
      = ⟨{ bb with _cursor := match o with | some c => some c | none => bb._cursor },
          sbv, fm⟩ := by
  cases o with
  | none => rfl
  | some c => rfl

theorem dfold_withDeleted (cnd : Prop) [Decidable cnd] (bb : PaginateQueryBuilder)
    (sbv : List JStr) (fm : List (JStr × List JStr)) :
    ((if cnd then [(str "withDeleted", str "true")] else []) : List (JStr × JStr)).foldl
        (fun a kv => dispatchKV a kv.1 kv.2) ⟨bb, sbv, fm⟩
      = ⟨{ bb with _withDeleted := if cnd then some true else bb._withDeleted }, sbv, fm⟩ := by
  by_cases h : cnd
  · rw [if_pos h, if_pos h]
    rfl
  · rw [if_neg h, if_neg h]
    rfl

theorem setKey_append_of_none {α : Type} (M : List (JStr × α)) (c : JStr) (l0 x : α)
    (h : lookupKey M c = none) : setKey (M ++ [(c, l0)]) c x = M ++ [(c, x)] := by
  induction M with
  | nil => simp [setKey]
  | cons kv rest ih =>
    obtain ⟨k0, v0⟩ := kv
    simp only [lookupKey] at h
    by_cases hk : k0 = c
    · rw [if_pos hk] at h; cases h
    · rw [if_neg hk] at h
      simp only [List.cons_append, List.append_eq, setKey]
      rw [if_neg hk, ih h]

theorem lookup_append_last {α : Type} (M : List (JStr × α)) (c : JStr) (l0 : α)
    (h : lookupKey M c = none) : lookupKey (M ++ [(c, l0)]) c = some l0 := by
  rw [lookupKey_append, h]
  simp [lookupKey]

theorem dfold_filter_tokens (c : JStr) (vs : List JStr) (bb : PaginateQueryBuilder)
    (sbv : List JStr) (M : List (JStr × List JStr)) (l0 : List JStr)
    (hM : lookupKey M c = none) :
    ((vs.map (fun v => (str "filter." ++ c, v))).foldl (fun a kv => dispatchKV a kv.1 kv.2)
        ⟨bb, sbv, M ++ [(c, l0)]⟩)
      = ⟨bb, sbv, M ++ [(c, l0 ++ vs)]⟩ := by
  induction vs generalizing l0 with
  | nil => simp
  | cons v rest ih =>
    simp only [List.map_cons, List.foldl_cons]
    rw [dispatchKV_filterKey]
    simp only [List_lookup_eq_lookupKey]
    rw [lookup_append_last M c l0 hM]
    simp only []
    rw [setKey_append_of_none M c l0 _ hM, ih (l0 ++ [v])]
    simp [List.append_assoc]

theorem dfold_filter_entry (c : JStr) (val : ParamValue) (bb : PaginateQueryBuilder)
    (sbv : List JStr) (fm : List (JStr × List JStr))
    (hfm : lookupKey fm c = none) (hg : filterValGood val = true) :
    ((tokList val).map (fun v => (str "filter." ++ c, v))).foldl
        (fun a kv => dispatchKV a kv.1 kv.2) ⟨bb, sbv, fm⟩
      = ⟨bb, sbv, fm ++ [(c, tokList val)]⟩ := by
  obtain ⟨v1, vrest, hv⟩ : ∃ v1 vrest, tokList val = v1 :: vrest := by
    cases val with
    | single s => exact ⟨s, [], rfl⟩
    | arr vs =>
      cases vs with
      | nil => exact absurd hg (by simp [filterValGood])
      | cons x xs => exact ⟨x, xs, rfl⟩
  rw [hv]
  simp only [List.map_cons, List.foldl_cons]
  rw [dispatchKV_filterKey]
  simp only [List_lookup_eq_lookupKey]
  rw [hfm]
  simp only []
  rw [dfold_filter_tokens c vrest bb sbv fm [v1] hfm]
  simp

theorem dfold_filterSeg (l : List (JStr × ParamValue)) (bb : PaginateQueryBuilder)
    (sbv : List JStr) (fm : List (JStr × List JStr))
    (hn : (l.map Prod.fst).Nodup) (hg : ∀ cv ∈ l, filterValGood cv.2 = true)
    (hdisj : ∀ cv ∈ l, lookupKey fm cv.1 = none) :
    (l.flatMap (fun cv => (tokList cv.2).map (fun v => (str "filter." ++ cv.1, v)))).foldl
        (fun a kv => dispatchKV a kv.1 kv.2) ⟨bb, sbv, fm⟩
      = ⟨bb, sbv, fm ++ l.map (fun cv => (cv.1, tokList cv.2))⟩ := by
  induction l generalizing fm with
  | nil => simp
  | cons cv rest ih =>
    rw [List.map_cons] at hn
    obtain ⟨hmem, hrest⟩ := List.nodup_cons.mp hn
    simp only [List.flatMap_cons, List.foldl_append]
    rw [dfold_filter_entry cv.1 cv.2 bb sbv fm (hdisj cv (by simp)) (hg cv (by simp))]
    rw [ih (fm ++ [(cv.1, tokList cv.2)]) hrest
        (fun x hx => hg x (List.mem_cons_of_mem cv hx))
        (fun x hx => by
          rw [lookupKey_append, hdisj x (List.mem_cons_of_mem cv hx)]
          exact lookupKey_singleton_ne _ _ _
            (fun e => hmem (e ▸ List.mem_map_of_mem Prod.fst hx)))]
    simp [List.append_assoc]

theorem restore_tokList (val : ParamValue) (hg : filterValGood val = true) :
    (match tokList val with
     | [t] => ParamValue.single t
     | _ => ParamValue.arr (tokList val)) = val := by
  cases val with
  | single s => rfl
  | arr vs =>
    cases vs with
    | nil => exact absurd hg (by simp [filterValGood])
    | cons x xs =>
      cases xs with
      | nil => exact absurd hg (by simp [filterValGood])
      | cons y ys => rfl

theorem fold_builder_filter (fl : List (JStr × ParamValue)) (b0 : PaginateQueryBuilder)
    (hn : (fl.map Prod.fst).Nodup) (hg : ∀ cv ∈ fl, filterValGood cv.2 = true)
    (hdisj : ∀ cv ∈ fl, lookupKey b0._filter cv.1 = none) :
    (fl.map (fun cv => (cv.1, tokList cv.2))).foldl
        (fun bb cv => bb.filter cv.1 (ParamValue.arr cv.2)) b0
      = { b0 with _filter := b0._filter ++ fl } := by
  induction fl generalizing b0 with
  | nil => simp
  | cons cv rest ih =>
    rw [List.map_cons] at hn
    obtain ⟨hmem, hrest⟩ := List.nodup_cons.mp hn
    simp only [List.map_cons, List.foldl_cons]
    have hstep : b0.filter cv.1 (ParamValue.arr (tokList cv.2))
        = { b0 with _filter := b0._filter ++ [cv] } := by
      unfold PaginateQueryBuilder.filter
      simp only [List_lookup_eq_lookupKey]
      rw [hdisj cv (by simp)]
      rw [if_neg (by decide)]
      rw [restore_tokList cv.2 (hg cv (by simp)), setKey_of_lookup_none _ _ _ (hdisj cv (by simp))]
    rw [hstep, ih { b0 with _filter := b0._filter ++ [cv] } hrest
        (fun x hx => hg x (List.mem_cons_of_mem cv hx))
        (fun x hx => by
          show lookupKey (b0._filter ++ [cv]) x.1 = none
          rw [lookupKey_append, hdisj x (List.mem_cons_of_mem cv hx)]
          exact lookupKey_singleton_ne _ _ _
            (fun e => hmem (e ▸ List.mem_map_of_mem Prod.fst hx)))]
    simp [List.append_assoc]

theorem tokList_ne_nil (val : ParamValue) (hg : filterValGood val = true) :
    tokList val ≠ [] := by
  cases val with
  | single s => simp [tokList]
  | arr vs =>
    cases vs with
    | nil => exact absurd hg (by simp [filterValGood])
    | cons x xs => simp [tokList]

theorem searchBy_if (bF : PaginateQueryBuilder) (sbv : List JStr) (h : bF._searchBy = []) :
    (if sbv.length ≠ 0 then bF.searchBy sbv else bF) = { bF with _searchBy := sbv } := by
  by_cases hs : sbv.length ≠ 0
  · rw [if_pos hs]
    rfl
  · rw [if_neg hs]
    have h0 : sbv = [] := by simpa [List.length_eq_zero] using not_not.mp (by simpa using hs)
    rw [h0, ← h]


theorem finalize_canonical (pg li : Option Int) (so : List (JStr × JStr)) (se : Option JStr)
    (sl : List JStr) (cu : Option JStr) (wd : Option Bool)
    (sbv : List JStr) (fl : List (JStr × ParamValue))
    (hn : (fl.map Prod.fst).Nodup) (hg : ∀ cv ∈ fl, filterValGood cv.2 = true) :
    finalizeParse ⟨⟨pg, li, so, se, [], sl, [], cu, wd⟩, sbv,
        fl.map (fun cv => (cv.1, tokList cv.2))⟩
      = ⟨pg, li, so, se, sbv, sl, fl, cu, wd⟩ := by
  unfold finalizeParse
  simp only []
  rw [searchBy_if ⟨pg, li, so, se, [], sl, [], cu, wd⟩ sbv rfl]
  rw [fold_builder_filter fl
      { (⟨pg, li, so, se, [], sl, [], cu, wd⟩ : PaginateQueryBuilder) with _searchBy := sbv }
      hn hg (fun cv hcv => rfl)]
  rfl

theorem toParams_parsed (pg li : Option Int) (so : List (JStr × JStr)) (se : Option JStr)
    (sb sl : List JStr) (fl : List (JStr × ParamValue)) (cu : Option JStr) (wd : Option Bool) :
    PaginateQueryBuilder.toParams
      ⟨(match pg with | some n => some n | none => none),
       (match li with | some n => some n | none => none),
       so,
       (match se with | some s => if s ≠ [] then some s else none | none => none),
       sb,
       (if sl.length ≠ 0 then jsSplit (Char.ofNat 44) (joinSep (Char.ofNat 44) sl) else []),
       fl,
       (match cu with | some c => some c | none => none),
       (if wd = some true then some true else none)⟩
      = PaginateQueryBuilder.toParams ⟨pg, li, so, se, sb, sl, fl, cu, wd⟩ := by
  have hp : (match (match pg with | some n => some n | none => none) with
             | some n => [(str "page", ParamValue.single (jsIntToStr n))]
             | none => ([] : ParamMap))
          = (match pg with
             | some n => [(str "page", ParamValue.single (jsIntToStr n))]
             | none => []) := by
    cases pg <;> rfl
  have hl : (match (match li with | some n => some n | none => none) with
             | some n => [(str "limit", ParamValue.single (jsIntToStr n))]
             | none => ([] : ParamMap))
          = (match li with
             | some n => [(str "limit", ParamValue.single (jsIntToStr n))]
             | none => []) := by
    cases li <;> rfl
  have hse : (match (match se with | some s => if s ≠ [] then some s else none | none => none) with
              | some s => if s ≠ [] then [(str "search", ParamValue.single s)] else []
              | none => ([] : ParamMap))
           = (match se with
              | some s => if s ≠ [] then [(str "search", ParamValue.single s)] else []
              | none => []) := by
    cases se with
    | none => rfl
    | some s =>
      by_cases hs : s = []
      · simp only [if_neg (not_not_intro hs)]
      · simp only [if_pos hs]
  have hslct : (if (if sl.length ≠ 0 then jsSplit (Char.ofNat 44) (joinSep (Char.ofNat 44) sl)
                    else []).length ≠ 0
                then [(str "select", ParamValue.single (joinSep (Char.ofNat 44)
                    (if sl.length ≠ 0 then jsSplit (Char.ofNat 44) (joinSep (Char.ofNat 44) sl)
                     else [])))]
                else ([] : ParamMap))
             = (if sl.length ≠ 0
                then [(str "select", ParamValue.single (joinSep (Char.ofNat 44) sl))]
                else []) := by
    by_cases h0 : sl.length ≠ 0
    · simp only [if_pos h0]
      rw [if_pos (by simpa [List.length_eq_zero] using
          jsSplit_ne_nil (Char.ofNat 44) (joinSep (Char.ofNat 44) sl))]
      rw [joinSep_jsSplit]
    · simp only [if_neg h0]
      rw [if_neg (by simp)]
  have hcu : (match (match cu with | some c => some c | none => none) with
              | some c => [(str "cursor", ParamValue.single c)]
              | none => ([] : ParamMap))
           = (match cu with
              | some c => [(str "cursor", ParamValue.single c)]
              | none => []) := by
    cases cu <;> rfl
  have hwd : (if (if wd = some true then some true else none) = some true
              then [(str "withDeleted", ParamValue.single (str "true"))]
              else ([] : ParamMap))
           = (if wd = some true
              then [(str "withDeleted", ParamValue.single (str "true"))]
              else []) := by
    by_cases h : wd = some true
    · simp [h]
    · simp [h]
  unfold PaginateQueryBuilder.toParams
  simp only []
  rw [hp, hl, hse, hslct, hcu, hwd]

/-- C1 (amended): serialize-parse-reserialize is the identity on the param
map for every builder state whose sort directions are the `SortDirection`
literals, whose serialized values are never the empty string, and whose
filter entries are non-degenerate (no empty or singleton token array, no
duplicate columns).  As literally stated — over every mutator-reachable
state — the claim fails, e.g. for `cursor('')`. -/
theorem roundTrip (b : PaginateQueryBuilder) (h : roundTrippable b = true) :
    (fromQueryString b.toQueryStr).map PaginateQueryBuilder.toParams = .ok b.toParams := by
  unfold roundTrippable at h
  simp only [Bool.and_eq_true] at h
  obtain ⟨⟨⟨⟨⟨hdir, hsb⟩, hsel⟩, hcur⟩, hnodup⟩, hfil⟩ := h
  have hdir' : ∀ cd ∈ b._sortBy, SEP ∉ cd.2 := by
    intro cd hcd
    have hX := (List.all_eq_true.mp hdir) cd hcd
    simp only [decide_eq_true_eq] at hX
    rcases hX with h1 | h1 <;> (rw [h1]; decide)
  have hsb' : ∀ s ∈ b._searchBy, s ≠ [] := by
    intro s hs hnil
    have hX := (List.all_eq_true.mp hsb) s hs
    rw [hnil] at hX
    simp at hX
  have hsel' : b._select ≠ [] → joinSep (Char.ofNat 44) b._select ≠ [] := by
    intro hne hnil
    rw [Bool.or_eq_true] at hsel
    rcases hsel with hX | hX
    · exact hne (by simpa [List.isEmpty_iff] using hX)
    · rw [hnil] at hX
      simp at hX
  have hcur' : b._cursor ≠ some [] := by
    intro hX
    rw [hX] at hcur
    simp at hcur
  have hnodup' : (b._filter.map Prod.fst).Nodup := by simpa using hnodup
  have hfil' : ∀ cv ∈ b._filter, filterValGood cv.2 = true := List.all_eq_true.mp hfil
  by_cases hkv : flatKVs b.toParams = []
  · -- the empty param map: the query string is empty and parses to a fresh builder
    have hplist : flatQsPairs b.toParams = [] := by
      rw [flatQsPairs_eq_map_flatKVs, hkv]
      rfl
    have hqs : b.toQueryStr = [] := by
      show toQueryString b.toParams = []
      unfold toQueryString
      rw [qsPairs_eq_flat, hplist]
      simp
    rw [hqs]
    rw [show fromQueryString [] = .ok ({} : PaginateQueryBuilder) from rfl]
    simp only [Except.map]
    refine congrArg Except.ok ?_
    rw [flatKVs_toParams b hsb' hsel' hcur' hfil'] at hkv
    simp only [List.append_eq_nil] at hkv
    obtain ⟨hp, hl, hso, hse, hsb2, hselc, hc, hw, hf⟩ := hkv
    have hpage : b._page = none := by
      cases hpp : b._page with
      | none => rfl
      | some n => rw [hpp] at hp; cases hp
    have hlimit : b._limit = none := by
      cases hpp : b._limit with
      | none => rfl
      | some n => rw [hpp] at hl; cases hl
    have hsort : b._sortBy = [] := List.map_eq_nil.mp hso
    have hsearch : b._search = none ∨ b._search = some [] := by
      cases hss : b._search with
      | none => exact Or.inl rfl
      | some s =>
        rw [hss] at hse
        simp only [] at hse
        by_cases hs0 : s = []
        · exact Or.inr (by rw [hs0])
        · rw [if_pos hs0] at hse
          cases hse
    have hsearchBy : b._searchBy = [] := List.map_eq_nil.mp hsb2
    have hselect : b._select = [] := by
      by_contra hne
      rw [if_pos (by simpa [List.length_eq_zero] using hne)] at hselc
      cases hselc
    have hcursor : b._cursor = none := by
      cases hcc : b._cursor with
      | none => rfl
      | some c => rw [hcc] at hc; cases hc
    have hwd : ¬ b._withDeleted = some true := by
      intro hX
      rw [if_pos hX] at hw
      cases hw
    have hfilter : b._filter = [] := by
      cases hbf : b._filter with
      | nil => rfl
      | cons cv rest =>
        exfalso
        rw [hbf] at hf
        simp only [List.flatMap_cons, List.append_eq_nil] at hf
        exact tokList_ne_nil cv.2 (hfil' cv (by rw [hbf]; simp)) (List.map_eq_nil.mp hf.1)
    unfold PaginateQueryBuilder.toParams
    rw [hpage, hlimit, hsort, hsearchBy, hselect, hcursor, hfilter]
    rcases hsearch with hss | hss <;> rw [hss] <;> simp [hwd]
  · rw [fromQueryString_toQueryStr b hkv]
    simp only [Except.map]
    rw [flatKVs_toParams b hsb' hsel' hcur' hfil',
      List.foldl_append, List.foldl_append, List.foldl_append, List.foldl_append,
      List.foldl_append, List.foldl_append, List.foldl_append, List.foldl_append,
      dfold_page, dfold_limit, dfold_sortBy _ _ _ _ hdir', dfold_search, dfold_searchBy,
      dfold_select, dfold_cursor, dfold_withDeleted,
      dfold_filterSeg b._filter _ _ [] hnodup' hfil' (fun cv hcv => rfl)]
    show Except.ok (PaginateQueryBuilder.toParams (finalizeParse
        ⟨⟨(match b._page with | some n => some n | none => none),
          (match b._limit with | some n => some n | none => none),
          b._sortBy,
          (match b._search with | some s => if s ≠ [] then some s else none | none => none),
          [],
          (if b._select.length ≠ 0 then
            jsSplit (Char.ofNat 44) (joinSep (Char.ofNat 44) b._select)
           else []),
          [],
          (match b._cursor with | some c => some c | none => none),
          (if b._withDeleted = some true then some true else none)⟩,
         b._searchBy,
         b._filter.map (fun cv => (cv.1, tokList cv.2))⟩))
      = Except.ok b.toParams
    rw [finalize_canonical _ _ _ _ _ _ _ _ _ hnodup' hfil']
    rw [toParams_parsed b._page b._limit b._sortBy b._search b._searchBy b._select b._filter
      b._cursor b._withDeleted]

/-- C1, counterexample to the literal claim: the mutator-reachable state
`createPaginateParams.cursor('')` does not round-trip — `toQueryString`
drops the empty-string value, so the parsed builder lacks the cursor key. -/
theorem roundTrip_counterexample :
    (fromQueryString (createPaginateParams.cursor []).toQueryStr).map
        PaginateQueryBuilder.toParams
      ≠ .ok (createPaginateParams.cursor []).toParams := by decide

theorem roundTrip_witness :
    roundTrippable ((((createPaginateParams.page 2).sortBy (str "name") (str "ASC")).filter
        (str "age") (ParamValue.arr [str "$gte:3", str "$lte:9"])).search (str "john")) = true
    ∧ (fromQueryString ((((createPaginateParams.page 2).sortBy (str "name")
          (str "ASC")).filter (str "age")
          (ParamValue.arr [str "$gte:3", str "$lte:9"])).search (str "john")).toQueryStr).map
        PaginateQueryBuilder.toParams
      = .ok ((((createPaginateParams.page 2).sortBy (str "name") (str "ASC")).filter
          (str "age") (ParamValue.arr [str "$gte:3", str "$lte:9"])).search (str "john")).toParams :=
  ⟨by decide, roundTrip _ (by decide)⟩

theorem getD_set_ne {α : Type} (l : List α) (i r : Nat) (a d : α) (h : i ≠ r) :
    (l.set i a).getD r d = l.getD r d := by
  induction l generalizing i r with
  | nil => rfl
  | cons x xs ih =>
    cases i with
    | zero =>
      cases r with
      | zero => exact absurd rfl h
      | succ r1 => rfl
    | succ i1 =>
      cases r with
      | zero => rfl
      | succ r1 =>
        show (xs.set i1 a).getD r1 d = xs.getD r1 d
        exact ih i1 r1 (fun e => h (congrArg Nat.succ e))

theorem getD_append_lt {α : Type} (l l2 : List α) (r : Nat) (d : α) (h : r < l.length) :
    (l ++ l2).getD r d = l.getD r d := by
  induction l generalizing r with
  | nil => exact absurd h (Nat.not_lt_zero r)
  | cons x xs ih =>
    cases r with
    | zero => rfl
    | succ r1 =>
      show (xs ++ l2).getD r1 d = xs.getD r1 d
      exact ih r1 (Nat.lt_of_succ_lt_succ h)

theorem getD_at_len {α : Type} (l t : List α) (a d : α) :
    (l ++ a :: t).getD l.length d = a := by
  induction l with
  | nil => rfl
  | cons x xs ih =>
    show (xs ++ a :: t).getD xs.length d = a
    exact ih

namespace Heap

theorem preserves_refl (σ : Store) (rs rf : Nat) : PreservesExcept σ σ rs rf :=
  ⟨Nat.le_refl _, Nat.le_refl _, Nat.le_refl _,
   fun _ _ _ => rfl, fun _ _ => rfl, fun _ _ _ => rfl⟩

theorem preserves_trans {σ1 σ2 σ3 : Store} {rs rf : Nat}
    (h12 : PreservesExcept σ1 σ2 rs rf) (h23 : PreservesExcept σ2 σ3 rs rf) :
    PreservesExcept σ1 σ3 rs rf := by
  obtain ⟨a1, b1, c1, d1, e1, f1⟩ := h12
  obtain ⟨a2, b2, c2, d2, e2, f2⟩ := h23
  exact ⟨Nat.le_trans a1 a2, Nat.le_trans b1 b2, Nat.le_trans c1 c2,
    fun r hr hne => (d2 r (Nat.lt_of_lt_of_le hr a1) hne).trans (d1 r hr hne),
    fun r hr => (e2 r (Nat.lt_of_lt_of_le hr b1)).trans (e1 r hr),
    fun r hr hne => (f2 r (Nat.lt_of_lt_of_le hr c1) hne).trans (f1 r hr hne)⟩

theorem preserves_setSort (σ : Store) (rs : Nat) (a : List (JStr × JStr)) (rf : Nat) :
    PreservesExcept σ (setSort σ rs a) rs rf := by
  refine ⟨Nat.le_of_eq (by simp [setSort]), Nat.le_refl _, Nat.le_refl _, ?_,
    fun r hr => rfl, fun r hr hne => rfl⟩
  intro r hr hne
  show (σ.sortArrs.set rs a).getD r [] = σ.sortArrs.getD r []
  exact getD_set_ne _ _ _ _ _ (fun e => hne e.symm)

theorem preserves_allocStr (σ : Store) (a : List JStr) (rs rf : Nat) :
    PreservesExcept σ { σ with strArrs := σ.strArrs ++ [a] } rs rf := by
  refine ⟨Nat.le_refl _, by simp, Nat.le_refl _, fun r hr hne => rfl, ?_,
    fun r hr hne => rfl⟩
  intro r hr
  exact getD_append_lt _ _ _ _ hr

theorem preserves_setObj (σ : Store) (rf : Nat) (o : List (JStr × HFilterVal)) (rs : Nat) :
    PreservesExcept σ (setObj σ rf o) rs rf := by
  refine ⟨Nat.le_refl _, Nat.le_refl _, Nat.le_of_eq (by simp [setObj]),
    fun r hr hne => rfl, fun r hr => rfl, ?_⟩
  intro r hr hne
  show (σ.filterObjs.set rf o).getD r [] = σ.filterObjs.getD r []
  exact getD_set_ne _ _ _ _ _ (fun e => hne e.symm)

theorem preserves_alloc_setObj (σ : Store) (a : List JStr) (rf : Nat)
    (o : List (JStr × HFilterVal)) (rs : Nat) :
    PreservesExcept σ (setObj { σ with strArrs := σ.strArrs ++ [a] } rf o) rs rf :=
  preserves_trans (preserves_allocStr σ a rs rf) (preserves_setObj _ rf o rs)

theorem applyMut_step (σ : Store) (b : HBuilder) (m : Mut) :
    (applyMut σ b m).2._sortByRef = b._sortByRef
    ∧ (applyMut σ b m).2._filterRef = b._filterRef
    ∧ PreservesExcept σ (applyMut σ b m).1 b._sortByRef b._filterRef := by
  cases m with
  | page n => exact ⟨rfl, rfl, preserves_refl σ _ _⟩
  | limit n => exact ⟨rfl, rfl, preserves_refl σ _ _⟩
  | search s => exact ⟨rfl, rfl, preserves_refl σ _ _⟩
  | cursor s => exact ⟨rfl, rfl, preserves_refl σ _ _⟩
  | withDeleted v => exact ⟨rfl, rfl, preserves_refl σ _ _⟩
  | sortBy c d => exact ⟨rfl, rfl, preserves_setSort σ b._sortByRef _ b._filterRef⟩
  | searchBy cs => exact ⟨rfl, rfl, preserves_allocStr σ cs b._sortByRef b._filterRef⟩
  | select cs => exact ⟨rfl, rfl, preserves_allocStr σ cs b._sortByRef b._filterRef⟩
  | filter c t =>
    cases hlk : lookupKey (getObj σ b._filterRef) c with
    | some e =>
      cases e with
      | single s0 =>
        cases hs : s0.isEmpty with
        | false =>
          have hred : applyMut σ b (Mut.filter c t)
              = (setObj { σ with strArrs := σ.strArrs ++
                    [[s0] ++ (match t with | .arr ts => ts | .single s => [s])] }
                  b._filterRef
                  (setKey (getObj σ b._filterRef) c (.arr σ.strArrs.length)), b) := by
            simp only [applyMut, filter, hlk, allocStr]
            rw [if_pos (by rw [hs]; decide)]
          rw [hred]
          exact ⟨rfl, rfl, preserves_alloc_setObj σ _ b._filterRef _ b._sortByRef⟩
        | true =>
          cases t with
          | single s =>
            have hred : applyMut σ b (Mut.filter c (ParamValue.single s))
                = (setObj σ b._filterRef
                    (setKey (getObj σ b._filterRef) c (.single s)), b) := by
              simp only [applyMut, filter, hlk]
              rw [if_neg (by rw [hs]; decide)]
            rw [hred]
            exact ⟨rfl, rfl, preserves_setObj σ b._filterRef _ b._sortByRef⟩
          | arr ts =>
            cases ts with
            | nil =>
              have hred : applyMut σ b (Mut.filter c (ParamValue.arr []))
                  = (setObj { σ with strArrs := σ.strArrs ++ [[]] } b._filterRef
                      (setKey (getObj σ b._filterRef) c (.arr σ.strArrs.length)), b) := by
                simp only [applyMut, filter, hlk, allocStr]
                rw [if_neg (by rw [hs]; decide)]
              rw [hred]
              exact ⟨rfl, rfl, preserves_alloc_setObj σ _ b._filterRef _ b._sortByRef⟩
            | cons t1 ts2 =>
              cases ts2 with
              | nil =>
                have hred : applyMut σ b (Mut.filter c (ParamValue.arr [t1]))
                    = (setObj σ b._filterRef
                        (setKey (getObj σ b._filterRef) c (.single t1)), b) := by
                  simp only [applyMut, filter, hlk]
                  rw [if_neg (by rw [hs]; decide)]
                rw [hred]
                exact ⟨rfl, rfl, preserves_setObj σ b._filterRef _ b._sortByRef⟩
              | cons t2 ts3 =>
                have hred : applyMut σ b (Mut.filter c (ParamValue.arr (t1 :: t2 :: ts3)))
                    = (setObj { σ with strArrs := σ.strArrs ++ [t1 :: t2 :: ts3] }
                        b._filterRef
                        (setKey (getObj σ b._filterRef) c (.arr σ.strArrs.length)), b) := by
                  simp only [applyMut, filter, hlk, allocStr]
                  rw [if_neg (by rw [hs]; decide)]
                rw [hred]
                exact ⟨rfl, rfl, preserves_alloc_setObj σ _ b._filterRef _ b._sortByRef⟩
      | arr r0 =>
        have hred : applyMut σ b (Mut.filter c t)
            = (setObj { σ with strArrs := σ.strArrs ++
                  [getStr σ r0 ++ (match t with | .arr ts => ts | .single s => [s])] }
                b._filterRef
                (setKey (getObj σ b._filterRef) c (.arr σ.strArrs.length)), b) := by
          simp only [applyMut, filter, hlk, allocStr]
          rw [if_pos trivial]
        rw [hred]
        exact ⟨rfl, rfl, preserves_alloc_setObj σ _ b._filterRef _ b._sortByRef⟩
    | none =>
      cases t with
      | single s =>
        have hred : applyMut σ b (Mut.filter c (ParamValue.single s))
            = (setObj σ b._filterRef (setKey (getObj σ b._filterRef) c (.single s)), b) := by
          simp only [applyMut, filter, hlk]
          rw [if_neg (by decide)]
        rw [hred]
        exact ⟨rfl, rfl, preserves_setObj σ b._filterRef _ b._sortByRef⟩
      | arr ts =>
        cases ts with
        | nil =>
          have hred : applyMut σ b (Mut.filter c (ParamValue.arr []))
              = (setObj { σ with strArrs := σ.strArrs ++ [[]] } b._filterRef
                  (setKey (getObj σ b._filterRef) c (.arr σ.strArrs.length)), b) := by
            simp only [applyMut, filter, hlk, allocStr]
            rw [if_neg (by decide)]
          rw [hred]
          exact ⟨rfl, rfl, preserves_alloc_setObj σ _ b._filterRef _ b._sortByRef⟩
        | cons t1 ts2 =>
          cases ts2 with
          | nil =>
            have hred : applyMut σ b (Mut.filter c (ParamValue.arr [t1]))
                = (setObj σ b._filterRef
                    (setKey (getObj σ b._filterRef) c (.single t1)), b) := by
              simp only [applyMut, filter, hlk]
              rw [if_neg (by decide)]
            rw [hred]
            exact ⟨rfl, rfl, preserves_setObj σ b._filterRef _ b._sortByRef⟩
          | cons t2 ts3 =>
            have hred : applyMut σ b (Mut.filter c (ParamValue.arr (t1 :: t2 :: ts3)))
                = (setObj { σ with strArrs := σ.strArrs ++ [t1 :: t2 :: ts3] } b._filterRef
                    (setKey (getObj σ b._filterRef) c (.arr σ.strArrs.length)), b) := by
              simp only [applyMut, filter, hlk, allocStr]
              rw [if_neg (by decide)]
            rw [hred]
            exact ⟨rfl, rfl, preserves_alloc_setObj σ _ b._filterRef _ b._sortByRef⟩
theorem applyMuts_spec (ms : List Mut) : ∀ (σ : Store) (b : HBuilder),
    (applyMuts σ b ms).2._sortByRef = b._sortByRef
    ∧ (applyMuts σ b ms).2._filterRef = b._filterRef
    ∧ PreservesExcept σ (applyMuts σ b ms).1 b._sortByRef b._filterRef := by
  induction ms with
  | nil => exact fun σ b => ⟨rfl, rfl, preserves_refl σ _ _⟩
  | cons m rest ih =>
    intro σ b
    rcases hab : applyMut σ b m with ⟨σ1, b1⟩
    have hstep := applyMut_step σ b m
    rw [hab] at hstep
    obtain ⟨hs1, hf1, hp1⟩ := hstep
    obtain ⟨hs2, hf2, hp2⟩ := ih σ1 b1
    simp only [applyMuts, hab]
    rw [hs1, hf1] at hp2
    exact ⟨by rw [hs2, hs1], by rw [hf2, hf1], preserves_trans hp1 hp2⟩

end Heap

namespace Heap

theorem wf_fields (σ : Store) (b : HBuilder) (h : wf σ b = true) :
    b._sortByRef < σ.sortArrs.length
    ∧ b._searchByRef < σ.strArrs.length
    ∧ b._selectRef < σ.strArrs.length
    ∧ b._filterRef < σ.filterObjs.length
    ∧ ∀ cv ∈ getObj σ b._filterRef,
        (match cv.2 with
         | HFilterVal.single _ => True
         | HFilterVal.arr r => r < σ.strArrs.length) := by
  unfold wf at h
  simp only [Bool.and_eq_true, decide_eq_true_eq, List.all_eq_true] at h
  obtain ⟨⟨⟨⟨h1, h2⟩, h3⟩, h4⟩, h5⟩ := h
  refine ⟨h1, h2, h3, h4, ?_⟩
  intro cv hcv
  have hb := h5 cv hcv
  cases hv : cv.2 with
  | single s => simp only [hv]
  | arr r =>
    rw [hv] at hb
    simp only [] at hb
    simp only [hv]
    exact of_decide_eq_true hb

theorem pureView_preserved (σ σ2 : Store) (b : HBuilder) (rs rf : Nat)
    (h : wf σ b = true) (hp : PreservesExcept σ σ2 rs rf)
    (hrs : b._sortByRef ≠ rs) (hrf : b._filterRef ≠ rf) :
    pureView σ2 b = pureView σ b := by
  obtain ⟨h1, h2, h3, h4, h5⟩ := wf_fields σ b h
  obtain ⟨_, _, _, hgs, hstr, hobj⟩ := hp
  have e7 : (getObj σ2 b._filterRef).map (viewEntry σ2)
      = (getObj σ b._filterRef).map (viewEntry σ) := by
    rw [hobj _ h4 hrf]
    apply List.map_congr_left
    intro cv hcv
    have hb := h5 cv hcv
    cases hv : cv.2 with
    | single s => simp only [viewEntry, hv]
    | arr r =>
      rw [hv] at hb
      simp only [] at hb
      simp only [viewEntry, hv]
      rw [hstr r hb]
  unfold pureView
  rw [hgs _ h1 hrs, hstr _ h2, hstr _ h3, e7]

theorem copyFilterEntries_spec (σ0 : Store) (es : List (JStr × HFilterVal)) :
    ∀ σa : Store,
      (copyFilterEntries σ0 es σa).1.sortArrs = σa.sortArrs
      ∧ (copyFilterEntries σ0 es σa).1.filterObjs = σa.filterObjs
      ∧ (∃ ext, (copyFilterEntries σ0 es σa).1.strArrs = σa.strArrs ++ ext)
      ∧ (copyFilterEntries σ0 es σa).2.map (viewEntry (copyFilterEntries σ0 es σa).1)
          = es.map (viewEntry σ0)
      ∧ ∀ cv ∈ (copyFilterEntries σ0 es σa).2,
          (match cv.2 with
           | HFilterVal.single _ => True
           | HFilterVal.arr r => r < (copyFilterEntries σ0 es σa).1.strArrs.length) := by
  induction es with
  | nil =>
    intro σa
    refine ⟨rfl, rfl, ⟨[], (List.append_nil _).symm⟩, rfl, ?_⟩
    intro cv hcv
    exact absurd hcv (List.not_mem_nil cv)
  | cons cv0 rest ih =>
    intro σa
    obtain ⟨c, v⟩ := cv0
    cases v with
    | single s =>
      rcases hrec : copyFilterEntries σ0 rest σa with ⟨σ1, o⟩
      have ihs := ih σa
      rw [hrec] at ihs
      obtain ⟨ia, ib, ⟨ext, ic⟩, idm, ie⟩ := ihs
      simp only [copyFilterEntries, hrec]
      refine ⟨ia, ib, ⟨ext, ic⟩, ?_, ?_⟩
      · simp only [List.map_cons]
        rw [idm]
        simp only [viewEntry]
      · intro cv hcv
        rcases List.mem_cons.mp hcv with he | he
        · subst he
          simp only []
        · exact ie cv he
    | arr r =>
      rcases hrec : copyFilterEntries σ0 rest { σa with strArrs := σa.strArrs ++ [getStr σ0 r] }
        with ⟨σ1, o⟩
      have ihs := ih { σa with strArrs := σa.strArrs ++ [getStr σ0 r] }
      rw [hrec] at ihs
      obtain ⟨ia, ib, ⟨ext, ic⟩, idm, ie⟩ := ihs
      simp only [] at ic
      simp only [copyFilterEntries, allocStr, hrec]
      have hv : getStr σ1 σa.strArrs.length = getStr σ0 r := by
        show σ1.strArrs.getD σa.strArrs.length [] = getStr σ0 r
        rw [ic, List.append_assoc]
        exact getD_at_len _ _ _ _
      refine ⟨ia, ib, ?_, ?_, ?_⟩
      · refine ⟨getStr σ0 r :: ext, ?_⟩
        rw [ic]
        simp
      · simp only [List.map_cons]
        rw [idm]
        simp only [viewEntry]
        rw [hv]
      · intro cv hcv
        rcases List.mem_cons.mp hcv with he | he
        · subst he
          simp only []
          rw [ic]
          simp only [List.length_append, List.length_singleton]
          omega
        · exact ie cv he

end Heap

namespace Heap

theorem clone_spec (σ : Store) (b : HBuilder) (h : wf σ b = true) :
    pureView (clone σ b).1 (clone σ b).2 = pureView σ b
    ∧ pureView (clone σ b).1 b = pureView σ b
    ∧ wf (clone σ b).1 b = true
    ∧ wf (clone σ b).1 (clone σ b).2 = true
    ∧ b._sortByRef ≠ (clone σ b).2._sortByRef
    ∧ b._filterRef ≠ (clone σ b).2._filterRef := by
  obtain ⟨h1, h2, h3, h4, h5⟩ := wf_fields σ b h
  rcases hCF : copyFilterEntries σ (getObj σ b._filterRef)
      { σ with sortArrs := σ.sortArrs ++ [getSort σ b._sortByRef],
               strArrs := σ.strArrs ++ [getStr σ b._searchByRef] ++ [getStr σ b._selectRef] }
    with ⟨σ4, entries⟩
  have hsp := copyFilterEntries_spec σ (getObj σ b._filterRef)
      { σ with sortArrs := σ.sortArrs ++ [getSort σ b._sortByRef],
               strArrs := σ.strArrs ++ [getStr σ b._searchByRef] ++ [getStr σ b._selectRef] }
  rw [hCF] at hsp
  obtain ⟨ha, hb, ⟨ext, hc⟩, hd, he⟩ := hsp
  simp only [] at ha hb hc
  simp only [clone, allocSort, allocStr, allocObj, hCF]
  have hobj5 : getObj { σ4 with filterObjs := σ4.filterObjs ++ [entries] }
      σ4.filterObjs.length = entries := by
    show (σ4.filterObjs ++ [entries]).getD σ4.filterObjs.length [] = entries
    exact getD_at_len _ _ _ _
  have hp : PreservesExcept σ { σ4 with filterObjs := σ4.filterObjs ++ [entries] }
      σ.sortArrs.length σ.filterObjs.length := by
    refine ⟨?_, ?_, ?_, ?_, ?_, ?_⟩
    · show σ.sortArrs.length ≤ σ4.sortArrs.length
      rw [ha]
      simp
    · show σ.strArrs.length ≤ σ4.strArrs.length
      rw [hc]
      simp [List.length_append]
    · show σ.filterObjs.length ≤ (σ4.filterObjs ++ [entries]).length
      rw [hb]
      simp
    · intro r hr _
      show σ4.sortArrs.getD r [] = σ.sortArrs.getD r []
      rw [ha]
      exact getD_append_lt _ _ _ _ hr
    · intro r hr
      show σ4.strArrs.getD r [] = σ.strArrs.getD r []
      rw [hc, List.append_assoc, List.append_assoc]
      exact getD_append_lt _ _ _ _ hr
    · intro r hr _
      show (σ4.filterObjs ++ [entries]).getD r [] = σ.filterObjs.getD r []
      rw [hb]
      exact getD_append_lt _ _ _ _ hr
  refine ⟨?_, ?_, ?_, ?_, ?_, ?_⟩
  · -- clone's view equals the original's
    unfold pureView
    have e3 : getSort { σ4 with filterObjs := σ4.filterObjs ++ [entries] } σ.sortArrs.length
        = getSort σ b._sortByRef := by
      show σ4.sortArrs.getD σ.sortArrs.length [] = getSort σ b._sortByRef
      rw [ha]
      exact getD_at_len _ _ _ _
    have e5 : getStr { σ4 with filterObjs := σ4.filterObjs ++ [entries] } σ.strArrs.length
        = getStr σ b._searchByRef := by
      show σ4.strArrs.getD σ.strArrs.length [] = getStr σ b._searchByRef
      rw [hc, List.append_assoc, List.append_assoc]
      exact getD_at_len _ _ _ _
    have e6 : getStr { σ4 with filterObjs := σ4.filterObjs ++ [entries] }
        (σ.strArrs ++ [getStr σ b._searchByRef]).length = getStr σ b._selectRef := by
      show σ4.strArrs.getD (σ.strArrs ++ [getStr σ b._searchByRef]).length []
          = getStr σ b._selectRef
      rw [hc, List.append_assoc]
      exact getD_at_len _ _ _ _
    have e7 : (getObj { σ4 with filterObjs := σ4.filterObjs ++ [entries] }
          σ4.filterObjs.length).map
            (viewEntry { σ4 with filterObjs := σ4.filterObjs ++ [entries] })
        = (getObj σ b._filterRef).map (viewEntry σ) := by
      rw [hobj5]
      exact hd
    rw [e3, e5, e6, e7]
  · exact pureView_preserved σ _ b _ _ h hp (Nat.ne_of_lt h1) (Nat.ne_of_lt h4)
  · -- the original stays well-formed in the extended store
    unfold wf
    simp only [Bool.and_eq_true, decide_eq_true_eq, List.all_eq_true]
    obtain ⟨hl1, hl2, hl3, _, hstr, hobj⟩ := hp
    have hO : getObj { σ4 with filterObjs := σ4.filterObjs ++ [entries] } b._filterRef
        = getObj σ b._filterRef := hobj _ h4 (Nat.ne_of_lt h4)
    refine ⟨⟨⟨⟨Nat.lt_of_lt_of_le h1 hl1, Nat.lt_of_lt_of_le h2 hl2⟩,
      Nat.lt_of_lt_of_le h3 hl2⟩, Nat.lt_of_lt_of_le h4 hl3⟩, ?_⟩
    intro cv hcv
    rw [hO] at hcv
    have hbd := h5 cv hcv
    cases hv : cv.2 with
    | single s => rfl
    | arr r =>
      rw [hv] at hbd
      simp only [] at hbd
      exact decide_eq_true (Nat.lt_of_lt_of_le hbd hl2)
  · -- the clone itself is well-formed
    unfold wf
    simp only [Bool.and_eq_true, decide_eq_true_eq, List.all_eq_true]
    refine ⟨⟨⟨⟨?_, ?_⟩, ?_⟩, ?_⟩, ?_⟩
    · show σ.sortArrs.length < σ4.sortArrs.length
      rw [ha]
      simp
    · show σ.strArrs.length < σ4.strArrs.length
      rw [hc]
      simp [List.length_append, List.length_singleton]
    · show (σ.strArrs ++ [getStr σ b._searchByRef]).length < σ4.strArrs.length
      rw [hc]
      simp [List.length_append, List.length_singleton]
    · show σ4.filterObjs.length < (σ4.filterObjs ++ [entries]).length
      simp
    · intro cv hcv
      rw [hobj5] at hcv
      have hbd := he cv hcv
      cases hv : cv.2 with
      | single s => rfl
      | arr r =>
        rw [hv] at hbd
        simp only [] at hbd
        exact decide_eq_true hbd
  · exact Nat.ne_of_lt h1
  · show b._filterRef ≠ σ4.filterObjs.length
    rw [hb]
    exact Nat.ne_of_lt h4

end Heap

/-- C5: `clone()` returns a builder whose observable state (`toParams` of
the dereferenced view) equals the original's, and any subsequent sequence
of public mutations applied to the clone leaves the original's `toParams`
unchanged and vice versa — the copy shares no mutable container with the
source. -/
theorem clone_independent (σ : Heap.Store) (b : Heap.HBuilder) (h : Heap.wf σ b = true) :
    (Heap.pureView (Heap.clone σ b).1 (Heap.clone σ b).2).toParams
        = (Heap.pureView σ b).toParams
    ∧ (∀ ms : List Heap.Mut,
        (Heap.pureView (Heap.applyMuts (Heap.clone σ b).1 (Heap.clone σ b).2 ms).1 b).toParams
          = (Heap.pureView σ b).toParams)
    ∧ (∀ ms : List Heap.Mut,
        (Heap.pureView (Heap.applyMuts (Heap.clone σ b).1 b ms).1 (Heap.clone σ b).2).toParams
          = (Heap.pureView (Heap.clone σ b).1 (Heap.clone σ b).2).toParams) := by
  obtain ⟨hviewc, hviewb, hwfb, hwfc, hneS, hneF⟩ := Heap.clone_spec σ b h
  refine ⟨congrArg _ hviewc, ?_, ?_⟩
  · intro ms
    obtain ⟨hs, hf, hp⟩ := Heap.applyMuts_spec ms (Heap.clone σ b).1 (Heap.clone σ b).2
    have hv : Heap.pureView (Heap.applyMuts (Heap.clone σ b).1 (Heap.clone σ b).2 ms).1 b
        = Heap.pureView (Heap.clone σ b).1 b :=
      Heap.pureView_preserved _ _ b _ _ hwfb hp hneS hneF
    rw [hv, hviewb]
  · intro ms
    obtain ⟨hs, hf, hp⟩ := Heap.applyMuts_spec ms (Heap.clone σ b).1 b
    have hv : Heap.pureView (Heap.applyMuts (Heap.clone σ b).1 b ms).1 (Heap.clone σ b).2
        = Heap.pureView (Heap.clone σ b).1 (Heap.clone σ b).2 :=
      Heap.pureView_preserved _ _ _ _ _ hwfc hp (Ne.symm hneS) (Ne.symm hneF)
    rw [hv]

theorem clone_independent_witness :
    Heap.wf (Heap.applyMuts (Heap.newBuilder {}).1 (Heap.newBuilder {}).2
      [Heap.Mut.filter (str "age") (ParamValue.arr [str "$gte:3", str "$lte:9"]),
       Heap.Mut.sortBy (str "name") (str "ASC")]).1 (Heap.applyMuts (Heap.newBuilder {}).1 (Heap.newBuilder {}).2
      [Heap.Mut.filter (str "age") (ParamValue.arr [str "$gte:3", str "$lte:9"]),
       Heap.Mut.sortBy (str "name") (str "ASC")]).2 = true
    ∧ (Heap.pureView (Heap.clone (Heap.applyMuts (Heap.newBuilder {}).1 (Heap.newBuilder {}).2
      [Heap.Mut.filter (str "age") (ParamValue.arr [str "$gte:3", str "$lte:9"]),
       Heap.Mut.sortBy (str "name") (str "ASC")]).1 (Heap.applyMuts (Heap.newBuilder {}).1 (Heap.newBuilder {}).2
      [Heap.Mut.filter (str "age") (ParamValue.arr [str "$gte:3", str "$lte:9"]),
       Heap.Mut.sortBy (str "name") (str "ASC")]).2).1 (Heap.clone (Heap.applyMuts (Heap.newBuilder {}).1 (Heap.newBuilder {}).2
      [Heap.Mut.filter (str "age") (ParamValue.arr [str "$gte:3", str "$lte:9"]),
       Heap.Mut.sortBy (str "name") (str "ASC")]).1 (Heap.applyMuts (Heap.newBuilder {}).1 (Heap.newBuilder {}).2
      [Heap.Mut.filter (str "age") (ParamValue.arr [str "$gte:3", str "$lte:9"]),
       Heap.Mut.sortBy (str "name") (str "ASC")]).2).2).toParams
        = (Heap.pureView (Heap.applyMuts (Heap.newBuilder {}).1 (Heap.newBuilder {}).2
      [Heap.Mut.filter (str "age") (ParamValue.arr [str "$gte:3", str "$lte:9"]),
       Heap.Mut.sortBy (str "name") (str "ASC")]).1 (Heap.applyMuts (Heap.newBuilder {}).1 (Heap.newBuilder {}).2
      [Heap.Mut.filter (str "age") (ParamValue.arr [str "$gte:3", str "$lte:9"]),
       Heap.Mut.sortBy (str "name") (str "ASC")]).2).toParams
    ∧ (Heap.pureView (Heap.applyMuts (Heap.clone (Heap.applyMuts (Heap.newBuilder {}).1 (Heap.newBuilder {}).2
      [Heap.Mut.filter (str "age") (ParamValue.arr [str "$gte:3", str "$lte:9"]),
       Heap.Mut.sortBy (str "name") (str "ASC")]).1 (Heap.applyMuts (Heap.newBuilder {}).1 (Heap.newBuilder {}).2
      [Heap.Mut.filter (str "age") (ParamValue.arr [str "$gte:3", str "$lte:9"]),
       Heap.Mut.sortBy (str "name") (str "ASC")]).2).1
          (Heap.clone (Heap.applyMuts (Heap.newBuilder {}).1 (Heap.newBuilder {}).2
      [Heap.Mut.filter (str "age") (ParamValue.arr [str "$gte:3", str "$lte:9"]),
       Heap.Mut.sortBy (str "name") (str "ASC")]).1 (Heap.applyMuts (Heap.newBuilder {}).1 (Heap.newBuilder {}).2
      [Heap.Mut.filter (str "age") (ParamValue.arr [str "$gte:3", str "$lte:9"]),
       Heap.Mut.sortBy (str "name") (str "ASC")]).2).2
          [Heap.Mut.filter (str "age") (ParamValue.single (str "$eq:4")),
       Heap.Mut.sortBy (str "x") (str "DESC"), Heap.Mut.searchBy [str "name"]]).1 (Heap.applyMuts (Heap.newBuilder {}).1 (Heap.newBuilder {}).2
      [Heap.Mut.filter (str "age") (ParamValue.arr [str "$gte:3", str "$lte:9"]),
       Heap.Mut.sortBy (str "name") (str "ASC")]).2).toParams
        = (Heap.pureView (Heap.applyMuts (Heap.newBuilder {}).1 (Heap.newBuilder {}).2
      [Heap.Mut.filter (str "age") (ParamValue.arr [str "$gte:3", str "$lte:9"]),
       Heap.Mut.sortBy (str "name") (str "ASC")]).1 (Heap.applyMuts (Heap.newBuilder {}).1 (Heap.newBuilder {}).2
      [Heap.Mut.filter (str "age") (ParamValue.arr [str "$gte:3", str "$lte:9"]),
       Heap.Mut.sortBy (str "name") (str "ASC")]).2).toParams :=
  ⟨by decide,
   (clone_independent (Heap.applyMuts (Heap.newBuilder {}).1 (Heap.newBuilder {}).2
      [Heap.Mut.filter (str "age") (ParamValue.arr [str "$gte:3", str "$lte:9"]),
       Heap.Mut.sortBy (str "name") (str "ASC")]).1 (Heap.applyMuts (Heap.newBuilder {}).1 (Heap.newBuilder {}).2
      [Heap.Mut.filter (str "age") (ParamValue.arr [str "$gte:3", str "$lte:9"]),
       Heap.Mut.sortBy (str "name") (str "ASC")]).2 (by decide)).1,
   (clone_independent (Heap.applyMuts (Heap.newBuilder {}).1 (Heap.newBuilder {}).2
      [Heap.Mut.filter (str "age") (ParamValue.arr [str "$gte:3", str "$lte:9"]),
       Heap.Mut.sortBy (str "name") (str "ASC")]).1 (Heap.applyMuts (Heap.newBuilder {}).1 (Heap.newBuilder {}).2
      [Heap.Mut.filter (str "age") (ParamValue.arr [str "$gte:3", str "$lte:9"]),
       Heap.Mut.sortBy (str "name") (str "ASC")]).2 (by decide)).2.1
     [Heap.Mut.filter (str "age") (ParamValue.single (str "$eq:4")),
       Heap.Mut.sortBy (str "x") (str "DESC"), Heap.Mut.searchBy [str "name"]]⟩
